import Mathlib

/-!
Verification of the `mineswift` Minesweeper engine (`src/dist/mineswift.js`)
against its natural-language specification.

Shallow embedding conventions:
* A minefield cell is the record built by the `Minefield` constructor.  The
  redundant `pos` field (always `[row, col]`) is not repeated; `row`/`col`
  carry the same information.  `mines` is an `Int` because the JS field is a
  plain number that is incremented and decremented.
* The board (a JS `Array` subclass of rows of cells) is embedded as its
  row-major flattening (`concatenate()` in the source) together with the
  `rows`/`cols` dimensions.  `Board.WF` states the rectangularity invariant
  of the data model (`flat.length = rows * cols`).
* A JS number argument is embedded as `JsNum`: either an integer value
  (`Math.trunc` of any actual JS number; the fractional part plays no role
  in any of the verified properties) or `nan`, covering every input whose
  numeric coercion `+x` is `NaN`.
* JS exceptions are embedded as `Except JsError`.  The source throws plain
  `Error`s from `#validatePosition` (the spec's `InvalidPosition` family) and
  the runtime itself throws `TypeError` when a property of `undefined` is
  accessed.
* Unbounded JS loops (`while`, `for…of` over a growing array, iteration over
  a growing `Set`) are embedded as fuel-indexed recursions; every theorem
  about them is proved for every fuel value, and concrete evaluations use a
  fuel that is visibly larger than the number of iterations the loop needs.
-/

/-- One minefield cell, as created by the `Minefield` constructor. -/
structure Cell where
  mines : Int
  isMine : Bool
  isOpen : Bool
  isFlag : Bool
  row : Nat
  col : Nat
deriving Repr, DecidableEq

instance : Inhabited Cell :=
  ⟨{ mines := 0, isMine := false, isOpen := false, isFlag := false, row := 0, col := 0 }⟩

/-- The minefield: row-major flattening of the 2D array, with its dimensions
(`this.rows = this.length`, `this.cols = this[0].length`). -/
structure Board where
  rows : Nat
  cols : Nat
  flat : List Cell
deriving Repr, DecidableEq

/-- Rectangularity invariant of the data model (§3 of the spec): the board is
a `rows × cols` grid with at least one row and one column. -/
def Board.WF (b : Board) : Prop :=
  b.flat.length = b.rows * b.cols ∧ 1 ≤ b.rows ∧ 1 ≤ b.cols

instance (b : Board) : Decidable b.WF := by
  unfold Board.WF; infer_instance

/-- A JS number argument: `num x` stands for any JS value whose coercion
`Math.trunc (+v)` is the integer `x`, `nan` for any value coercing to `NaN`. -/
inductive JsNum where
  | num (x : Int)
  | nan
deriving Repr, DecidableEq

/-- The exceptions thrown by the engine. The first three come from
`#validatePosition` (the spec's `InvalidPosition`), `notAnInteger` from
`parseIntRange`, and `typeError` is the runtime error raised by a property
access on `undefined`. -/
inductive JsError where
  | positionInvalid
  | rowUndefined (r : Nat)
  | colUndefined (c : Nat)
  | notAnInteger
  | typeError
deriving Repr, DecidableEq

/-- Whether an error is one of the spec's `InvalidPosition` errors
(thrown by `#validatePosition`). -/
def JsError.isInvalidPositionError : JsError → Bool
  | .positionInvalid => true
  | .rowUndefined _ => true
  | .colUndefined _ => true
  | .notAnInteger => false
  | .typeError => false

/-- `#indexToPosition(index)`: `[Math.floor(index / this.cols), index % this.cols]`. -/
def indexToPosition (cols index : Nat) : Nat × Nat :=
  (index / cols, index % cols)

/-- `#positionToIndex([row, col])`: `row * this.cols + col`. -/
def positionToIndex (cols row col : Nat) : Nat :=
  row * cols + col

/-- `#getNearbyCellsIndex(index, includeSelf)`: the ≤ 8 neighbour indices of
`index` (optionally with `index` itself), clipped at the grid edges, in the
push order of the source. -/
def getNearbyCellsIndex (rows cols index : Nat) (includeSelf : Bool) : List Nat :=
  let row := index / cols
  let col := index % cols
  let isNotFirstCol := decide (0 < col)
  let isNotLastCol := decide (col < cols - 1)
  let l1 : List Nat :=
    if 0 < row then
      (if isNotFirstCol then [index - cols - 1] else []) ++ [index - cols] ++
        (if isNotLastCol then [index - cols + 1] else [])
    else []
  let l2 : List Nat := if isNotFirstCol then [index - 1] else []
  let l3 : List Nat := if includeSelf then [index] else []
  let l4 : List Nat := if isNotLastCol then [index + 1] else []
  let l5 : List Nat :=
    if row < rows - 1 then
      (if isNotFirstCol then [index + cols - 1] else []) ++ [index + cols] ++
        (if isNotLastCol then [index + cols + 1] else [])
    else []
  l1 ++ l2 ++ l3 ++ l4 ++ l5

/-- `#validatePosition(row, col)`: coerce each coordinate with
`Math.trunc(Math.abs(+x))` (on integers: `natAbs`), throw
`Position is invalid` on `NaN`, and range-check against the board
dimensions with JS signed arithmetic. -/
def validatePosition (rows cols : Nat) (r c : JsNum) : Except JsError (Nat × Nat) :=
  match r, c with
  | JsNum.num x, JsNum.num y =>
    let row : Nat := x.natAbs
    let col : Nat := y.natAbs
    if (rows : Int) - 1 < (row : Int) then Except.error (JsError.rowUndefined row)
    else if (cols : Int) - 1 < (col : Int) then Except.error (JsError.colUndefined col)
    else Except.ok (row, col)
  | _, _ => Except.error JsError.positionInvalid

/-- JS element access `this[i]?.[j]` on the (rectangular) board: `none` when
either coordinate is off the grid, mirroring `undefined`. -/
def Board.peek (b : Board) (i j : Int) : Option Cell :=
  if 0 ≤ i ∧ i < (b.rows : Int) ∧ 0 ≤ j ∧ j < (b.cols : Int) then
    some (b.flat.getD (i.toNat * b.cols + j.toNat) default)
  else none

/-- `cellAt(position)` with a `[row, col]` pair.  The source performs **no**
validation: `this[position[0]][position[1]]` throws a `TypeError` when the
row lookup yields `undefined` (row coercing to `NaN`, negative, or ≥ rows),
and otherwise returns whatever the column lookup yields — possibly
`undefined` (`none`). -/
def Minefield.cellAt (b : Board) (r c : JsNum) : Except JsError (Option Cell) :=
  match r with
  | JsNum.num x =>
    if 0 ≤ x ∧ x < (b.rows : Int) then
      match c with
      | JsNum.num y =>
        if 0 ≤ y ∧ y < (b.cols : Int) then
          Except.ok (some (b.flat.getD (x.toNat * b.cols + y.toNat) default))
        else Except.ok none
      | JsNum.nan => Except.ok none
    else Except.error JsError.typeError
  | JsNum.nan => Except.error JsError.typeError

/-- Append an optional cell, as the guarded `nearbyCells.push(...)` calls do. -/
def pushPeek (acc : List Cell) (oc : Option Cell) : List Cell :=
  match oc with
  | some cl => acc ++ [cl]
  | none => acc

/-- `getNearbyCells(position, includeSelf)`: validates the position, then
collects the existing cells of the 3×3 block around it in source order. -/
def Minefield.getNearbyCells (b : Board) (r c : JsNum) (includeSelf : Bool) :
    Except JsError (List Cell) :=
  match validatePosition b.rows b.cols r c with
  | Except.error e => Except.error e
  | Except.ok (row, col) =>
    let ri : Int := (row : Int)
    let ci : Int := (col : Int)
    let acc := pushPeek [] (b.peek (ri - 1) (ci - 1))
    let acc := pushPeek acc (b.peek (ri - 1) ci)
    let acc := pushPeek acc (b.peek (ri - 1) (ci + 1))
    let acc := pushPeek acc (b.peek ri (ci - 1))
    let acc := if includeSelf then pushPeek acc (b.peek ri ci) else acc
    let acc := pushPeek acc (b.peek ri (ci + 1))
    let acc := pushPeek acc (b.peek (ri + 1) (ci - 1))
    let acc := pushPeek acc (b.peek (ri + 1) ci)
    let acc := pushPeek acc (b.peek (ri + 1) (ci + 1))
    Except.ok acc

/-- `isNew()`: no cell is open. -/
def Minefield.isNew (b : Board) : Bool :=
  b.flat.all (fun cl => !cl.isOpen)

/-- Scan of `isLost()`: return `true` at the first open mine. -/
def isLostGo : List Cell → Bool
  | [] => false
  | cl :: rest => if cl.isOpen ∧ cl.isMine then true else isLostGo rest

/-- `isLost()`: whether a mine has been opened. -/
def Minefield.isLost (b : Board) : Bool :=
  isLostGo b.flat

/-- Scan of `isCleared()`: return `false` at the first cell with
`isOpen == isMine`. -/
def isClearedGo : List Cell → Bool
  | [] => true
  | cl :: rest => if cl.isOpen = cl.isMine then false else isClearedGo rest

/-- `isCleared()`: every non-mine open and every mine closed. -/
def Minefield.isCleared (b : Board) : Bool :=
  isClearedGo b.flat

/-- Scan of `isOver()` with its `foundClosedEmpty` accumulator: return `true`
at the first open mine, remember any closed non-mine, and finally return
whether no closed non-mine was found. -/
def isOverGo : List Cell → Bool → Bool
  | [], foundClosedEmpty => !foundClosedEmpty
  | cl :: rest, foundClosedEmpty =>
    if cl.isOpen = false ∧ cl.isMine = false then isOverGo rest true
    else if cl.isOpen ∧ cl.isMine then true
    else isOverGo rest foundClosedEmpty

/-- `isOver()`: the game is over (cleared or lost). -/
def Minefield.isOver (b : Board) : Bool :=
  isOverGo b.flat false

section StateQueries

/-- Per-cell "not a closed non-mine" test used to relate the three scans. -/
def notClosedEmpty (cl : Cell) : Bool :=
  cl.isOpen || cl.isMine

lemma isLostGo_cons (cl : Cell) (l : List Cell) :
    isLostGo (cl :: l) = ((cl.isOpen && cl.isMine) || isLostGo l) := by
  by_cases h : cl.isOpen ∧ cl.isMine
  · simp [isLostGo, h, h.1, h.2]
  · have : (cl.isOpen && cl.isMine) = false := by
      cases ho : cl.isOpen <;> cases hm : cl.isMine <;> simp_all
    simp [isLostGo, h, this]

lemma isOverGo_eq (l : List Cell) (fce : Bool) :
    isOverGo l fce = (isLostGo l || (!fce && l.all notClosedEmpty)) := by
  induction l generalizing fce with
  | nil => simp [isOverGo, isLostGo]
  | cons cl rest ih =>
    rw [isLostGo_cons]
    by_cases hce : cl.isOpen = false ∧ cl.isMine = false
    · have h1 : (cl.isOpen && cl.isMine) = false := by simp [hce.1]
      have h2 : notClosedEmpty cl = false := by simp [notClosedEmpty, hce.1, hce.2]
      have h3 : ¬(cl.isOpen = true ∧ cl.isMine = true) := by simp [hce.1]
      simp [isOverGo, hce, h3, ih, h1, h2]
    · by_cases hom : cl.isOpen = true ∧ cl.isMine = true
      · have h1 : (cl.isOpen && cl.isMine) = true := by simp [hom.1, hom.2]
        simp [isOverGo, hce, hom, h1]
      · have h1 : (cl.isOpen && cl.isMine) = false := by
          cases ho : cl.isOpen <;> cases hm : cl.isMine <;> simp_all
        have h2 : notClosedEmpty cl = true := by
          unfold notClosedEmpty
          cases ho : cl.isOpen <;> cases hm : cl.isMine <;> simp_all
        simp [isOverGo, hce, hom, ih, h1, h2]

lemma isClearedGo_eq (l : List Cell) :
    isClearedGo l = (!isLostGo l && l.all notClosedEmpty) := by
  induction l with
  | nil => simp [isClearedGo, isLostGo]
  | cons cl rest ih =>
    rw [isLostGo_cons]
    by_cases h : cl.isOpen = cl.isMine
    · cases ho : cl.isOpen <;> cases hm : cl.isMine <;>
        simp_all [isClearedGo, notClosedEmpty]
    · cases ho : cl.isOpen <;> cases hm : cl.isMine <;>
        simp_all [isClearedGo, notClosedEmpty]

end StateQueries

/-- C10: for every board state, `isOver()` returns `true` if and only if
`isCleared()` or `isLost()` returns `true`. -/
theorem c10_isOver_iff_isCleared_or_isLost (b : Board) :
    Minefield.isOver b = (Minefield.isCleared b || Minefield.isLost b) := by
  unfold Minefield.isOver Minefield.isCleared Minefield.isLost
  rw [isOverGo_eq, isClearedGo_eq]
  cases h : isLostGo b.flat <;> simp

/-- The claim's bad-input condition for C9: a coordinate is non-numeric, or
its coercion `Math.trunc (Math.abs (+x))` lies outside the grid. -/
def badPos (rows cols : Nat) (r c : JsNum) : Prop :=
  r = JsNum.nan ∨ c = JsNum.nan ∨
    (∃ x, r = JsNum.num x ∧ rows ≤ x.natAbs) ∨
    (∃ y, c = JsNum.num y ∧ cols ≤ y.natAbs)

/-- C9 (amended): on bad input, `getNearbyCells` fails with one of the
`InvalidPosition` errors; `cellAt`, which performs no validation, instead
either throws a `TypeError` (failing row lookup) or returns `undefined`
(failing column lookup) — it never raises an `InvalidPosition` error. -/
theorem c9_amended_getNearbyCells_invalid_cellAt_unchecked
    (b : Board) (r c : JsNum) (incl : Bool)
    (hbad : badPos b.rows b.cols r c) :
    (∃ e, Minefield.getNearbyCells b r c incl = Except.error e ∧
      e.isInvalidPositionError = true)
    ∧ (Minefield.cellAt b r c = Except.error JsError.typeError ∨
       Minefield.cellAt b r c = Except.ok none) := by
  constructor
  · unfold Minefield.getNearbyCells validatePosition
    rcases hbad with h | h | ⟨x, hx, hge⟩ | ⟨y, hy, hge⟩
    · subst h
      cases c <;> exact ⟨JsError.positionInvalid, rfl, rfl⟩
    · subst h
      cases r <;> exact ⟨JsError.positionInvalid, rfl, rfl⟩
    · subst hx
      cases c with
      | num y =>
        have hlt : (b.rows : Int) - 1 < |x| := by
          rw [Int.abs_eq_natAbs]
          omega
        refine ⟨JsError.rowUndefined x.natAbs, ?_, rfl⟩
        simp [hlt]
      | nan => exact ⟨JsError.positionInvalid, rfl, rfl⟩
    · subst hy
      cases r with
      | num x =>
        by_cases hr : (b.rows : Int) - 1 < |x|
        · exact ⟨JsError.rowUndefined x.natAbs, by simp [hr], rfl⟩
        · have hlt : (b.cols : Int) - 1 < |y| := by
            rw [Int.abs_eq_natAbs]
            omega
          exact ⟨JsError.colUndefined y.natAbs, by simp [hr, hlt], rfl⟩
      | nan => exact ⟨JsError.positionInvalid, rfl, rfl⟩
  · unfold Minefield.cellAt
    cases r with
    | num x =>
      by_cases hx : 0 ≤ x ∧ x < (b.rows : Int)
      · cases c with
        | num y =>
          by_cases hy : 0 ≤ y ∧ y < (b.cols : Int)
          · exfalso
            rcases hbad with h | h | ⟨x', hx', hge⟩ | ⟨y', hy', hge⟩
            · exact JsNum.noConfusion h
            · exact JsNum.noConfusion h
            · cases hx'
              omega
            · cases hy'
              omega
          · right; simp [hx, hy]
        | nan => right; simp [hx]
      · left; simp [hx]
    | nan => left; rfl

/-- Witness board for counterexamples: a fresh 1×1 minefield with no mines. -/
def oneByOne : Board :=
  { rows := 1, cols := 1,
    flat := [{ mines := 0, isMine := false, isOpen := false, isFlag := false,
               row := 0, col := 0 }] }

/-- C9 counterexample: on the 1×1 board, `cellAt([0, 5])` — an input whose
column lies outside the grid — returns the value `undefined` instead of
failing with an `InvalidPosition` error. -/
theorem c9_counterexample_cellAt_returns_value :
    badPos oneByOne.rows oneByOne.cols (JsNum.num 0) (JsNum.num 5)
    ∧ Minefield.cellAt oneByOne (JsNum.num 0) (JsNum.num 5) = Except.ok none := by
  constructor
  · exact Or.inr (Or.inr (Or.inr ⟨5, rfl, by decide⟩))
  · rfl

/-- C9 witness: the amended theorem applied to the 1×1 board at the
non-numeric input `[NaN, 0]`. -/
theorem c9_amended_witness :
    (∃ e, Minefield.getNearbyCells oneByOne JsNum.nan (JsNum.num 0) false
        = Except.error e ∧ e.isInvalidPositionError = true)
    ∧ (Minefield.cellAt oneByOne JsNum.nan (JsNum.num 0)
        = Except.error JsError.typeError ∨
       Minefield.cellAt oneByOne JsNum.nan (JsNum.num 0) = Except.ok none) :=
  c9_amended_getNearbyCells_invalid_cellAt_unchecked oneByOne JsNum.nan
    (JsNum.num 0) false (Or.inl rfl)

instance {ε α : Type} [DecidableEq ε] [DecidableEq α] : DecidableEq (Except ε α) := fun x y =>
  match x, y with
  | Except.error a, Except.error b =>
    if h : a = b then Decidable.isTrue (by rw [h])
    else Decidable.isFalse (by intro hh; cases hh; exact h rfl)
  | Except.ok a, Except.ok b =>
    if h : a = b then Decidable.isTrue (by rw [h])
    else Decidable.isFalse (by intro hh; cases hh; exact h rfl)
  | Except.error _, Except.ok _ => Decidable.isFalse (by intro hh; cases hh)
  | Except.ok _, Except.error _ => Decidable.isFalse (by intro hh; cases hh)

/-- `cell.mines++` at a flat index. -/
def incMinesL (l : List Cell) (i : Nat) : List Cell :=
  List.modify (fun cl => { cl with mines := cl.mines + 1 }) i l

/-- `cell.mines--` at a flat index. -/
def decMinesL (l : List Cell) (i : Nat) : List Cell :=
  List.modify (fun cl => { cl with mines := cl.mines - 1 }) i l

/-- `cell.isMine = v` at a flat index. -/
def setMineL (l : List Cell) (i : Nat) (v : Bool) : List Cell :=
  List.modify (fun cl => { cl with isMine := v }) i l

/-- `cell.isOpen = v` at a flat index. -/
def setOpenL (l : List Cell) (i : Nat) (v : Bool) : List Cell :=
  List.modify (fun cl => { cl with isOpen := v }) i l

/-- `cell.isFlag = true` at a flat index. -/
def flagCellL (l : List Cell) (i : Nat) : List Cell :=
  List.modify (fun cl => { cl with isFlag := true }) i l

/-- The cell grid built by the constructor's nested loops, with the mine
predicate of the chosen branch (`mines-- > 0` in count mode, constant
`false` in explicit-positions mode). -/
def initialGrid (rows cols : Nat) (mine : Nat → Nat → Bool) : List Cell :=
  (List.range rows).flatMap (fun i =>
    (List.range cols).map (fun j =>
      { mines := 0, isMine := mine i j, isOpen := false, isFlag := false,
        row := i, col := j }))

/-- The destructuring swap `[this[r][c], this[r2][c2]] = [this[r2][c2], this[r][c]]`
on the flattened board: both sides are read, then both cells written. -/
def jsSwap (l : List Cell) (i j : Nat) : List Cell :=
  (l.set i (l.getD j default)).set j (l.getD i default)

/-- The Fisher–Yates loop `for (let i = cells-1; i > 0; i--)`; the injected
random source is embedded as the index choice `rng i % (i+1)`, the value of
`Math.floor(rng() * (i + 1))` at step `i` (always in `[0, i]`). -/
def shuffleGo (rng : Nat → Nat) : Nat → List Cell → List Cell
  | 0, l => l
  | i + 1, l => shuffleGo rng i (jsSwap l (i + 1) (rng (i + 1) % (i + 2)))

/-- The constructor's final pass in count mode: re-stamp `row`/`col`/`pos` of
every cell and, for each mine, increment the `mines` counter of the 3×3
block around it (`getNearbyCells(pos, true)`, i.e. including itself). -/
def stampAndCount (rows cols : Nat) (l : List Cell) : List Cell :=
  (List.range (rows * cols)).foldl
    (fun fl k =>
      let fl1 := List.modify (fun cl => { cl with row := k / cols, col := k % cols }) k fl
      if (fl1.getD k default).isMine then
        (getNearbyCellsIndex rows cols k true).foldl incMinesL fl1
      else fl1)
    l

/-- Explicit-positions branch: `this.cellAt(pos).isMine = true` followed by
`this.getNearbyCells(pos, true).forEach(cell => cell.mines++)` for each
listed position.  An out-of-grid position makes the unvalidated `cellAt`
lookup yield `undefined`, so the property assignment throws a `TypeError`. -/
def newListGo (rows cols : Nat) : List (Nat × Nat) → List Cell → Except JsError (List Cell)
  | [], fl => Except.ok fl
  | (r, c) :: ps, fl =>
    if r < rows ∧ c < cols then
      let idx := positionToIndex cols r c
      let fl1 := setMineL fl idx true
      let fl2 := (getNearbyCellsIndex rows cols idx true).foldl incMinesL fl1
      newListGo rows cols ps fl2
    else Except.error JsError.typeError

/-- The constructor's `mines` option: a number or an explicit position list. -/
inductive MinesArg where
  | count (m : Nat)
  | list (ps : List (Nat × Nat))
deriving Repr, DecidableEq

/-- The `Minefield` constructor.  `rows`/`cols` go through
`parseIntRange(·, 1)` (integer inputs clamp below at 1); a numeric mine
count `0` is replaced by the empty position list (`if (mines == 0) mines = []`);
the explicit-positions branch marks the listed cells, the count branch mines
the first `m` cells in row-major order (`isMine: mines-- > 0`), shuffles, and
re-stamps positions and adjacency counts. -/
def newFromList (rows cols : Nat) (ps : List (Nat × Nat)) : Except JsError Board :=
  match newListGo rows cols ps (initialGrid rows cols (fun _ _ => false)) with
  | Except.error e => Except.error e
  | Except.ok fl => Except.ok { rows := rows, cols := cols, flat := fl }

def Minefield.new (rows cols : Nat) (arg : MinesArg) (rng : Nat → Nat) :
    Except JsError Board :=
  match arg with
  | MinesArg.count 0 => newFromList (max rows 1) (max cols 1) []
  | MinesArg.count (m + 1) =>
    Except.ok (Board.mk (max rows 1) (max cols 1)
      (stampAndCount (max rows 1) (max cols 1)
        (shuffleGo rng (max rows 1 * max cols 1 - 1)
          (initialGrid (max rows 1) (max cols 1)
            (fun i j => decide (i * max cols 1 + j < m + 1))))))
  | MinesArg.list ps => newFromList (max rows 1) (max cols 1) ps

/-- The number of cells with `isMine == true` (the `mines` getter). -/
def countMines (l : List Cell) : Nat :=
  l.countP (fun cl => cl.isMine)

/-- The `get mines` accessor. -/
def Board.mines (b : Board) : Nat :=
  countMines b.flat

section CountingLemmas

lemma length_initialGrid (rows cols : Nat) (mine : Nat → Nat → Bool) :
    (initialGrid rows cols mine).length = rows * cols := by
  induction rows with
  | zero => simp [initialGrid]
  | succ r ih =>
    unfold initialGrid at *
    rw [List.range_succ, List.flatMap_append, List.length_append, ih]
    simp [Nat.succ_mul]

lemma countP_range_lt (n off m : Nat) :
    (List.range n).countP (fun j => decide (off + j < m))
      = min m (off + n) - min m off := by
  induction n with
  | zero => simp
  | succ k ih =>
    rw [List.range_succ, List.countP_append, ih]
    by_cases h : off + k < m <;> simp [h] <;> omega

lemma countMines_initialGrid (rows cols m : Nat) :
    countMines (initialGrid rows cols (fun i j => decide (i * cols + j < m)))
      = min m (rows * cols) := by
  induction rows with
  | zero => simp [initialGrid, countMines]
  | succ r ih =>
    unfold initialGrid countMines at *
    rw [List.range_succ, List.flatMap_append, List.countP_append, ih]
    simp only [List.flatMap_cons, List.flatMap_nil, List.append_nil, List.countP_map]
    have : ((fun cl : Cell => cl.isMine) ∘ fun j =>
        ({ mines := 0, isMine := decide (r * cols + j < m), isOpen := false,
           isFlag := false, row := r, col := j } : Cell))
        = fun j => decide (r * cols + j < m) := by
      funext j
      simp [Function.comp]
    rw [this, countP_range_lt]
    have h1 : min m (r * cols) ≤ min m (r * cols + cols) := by omega
    have h2 : (r + 1) * cols = r * cols + cols := by ring
    omega

lemma modify_eq_set (f : Cell → Cell) (l : List Cell) (i : Nat) (h : i < l.length) :
    List.modify f i l = l.set i (f (l.getD i default)) := by
  apply List.ext_getElem
  · simp
  · intro n h1 h2
    rw [List.getElem_modify, List.getElem_set]
    by_cases hn : i = n
    · subst hn
      rw [if_pos rfl, if_pos rfl, List.getD_eq_getElem _ _ h]
    · rw [if_neg hn, if_neg hn]

lemma modify_oob (f : Cell → Cell) (l : List Cell) (i : Nat) (h : l.length ≤ i) :
    List.modify f i l = l := by
  apply List.ext_getElem
  · simp
  · intro n h1 h2
    rw [List.getElem_modify, if_neg (by omega : ¬ i = n)]

lemma countP_set_add (p : Cell → Bool) (l : List Cell) (i : Nat) (x : Cell)
    (h : i < l.length) :
    (l.set i x).countP p + (if p (l.getD i default) then 1 else 0)
      = l.countP p + (if p x then 1 else 0) := by
  induction l generalizing i with
  | nil => simp at h
  | cons a t ih =>
    cases i with
    | zero =>
      simp only [List.set, List.countP_cons, List.getD_cons_zero]
      by_cases hx : p x <;> by_cases ha : p a <;> simp [hx, ha]
    | succ k =>
      have hk : k < t.length := by simpa using h
      have hrec := ih k hk
      simp only [List.set, List.countP_cons, List.getD_cons_succ]
      by_cases ha : p a <;> simp only [ha, if_pos, if_neg] <;> omega

lemma countP_modify_of_pred (p : Cell → Bool) (f : Cell → Cell)
    (hf : ∀ cl, p (f cl) = p cl) (i : Nat) (l : List Cell) :
    (List.modify f i l).countP p = l.countP p := by
  by_cases h : i < l.length
  · rw [modify_eq_set f l i h]
    have hadd := countP_set_add p l i (f (l.getD i default)) h
    rw [hf (l.getD i default)] at hadd
    omega
  · rw [modify_oob f l i (by omega)]

lemma countMines_incMines_foldl (ns : List Nat) (l : List Cell) :
    countMines (ns.foldl incMinesL l) = countMines l := by
  induction ns generalizing l with
  | nil => rfl
  | cons n t ih =>
    rw [List.foldl_cons, ih]
    unfold countMines incMinesL
    exact countP_modify_of_pred (fun cl => cl.isMine)
      (fun cl => { cl with mines := cl.mines + 1 }) (fun _ => rfl) n l

lemma length_incMines_foldl (ns : List Nat) (l : List Cell) :
    (ns.foldl incMinesL l).length = l.length := by
  induction ns generalizing l with
  | nil => rfl
  | cons n t ih => rw [List.foldl_cons, ih]; simp [incMinesL]

lemma isMine_incMines_foldl (ns : List Nat) (l : List Cell) (k : Nat) :
    ((ns.foldl incMinesL l).getD k default).isMine = (l.getD k default).isMine := by
  induction ns generalizing l with
  | nil => rfl
  | cons n t ih =>
    rw [List.foldl_cons, ih]
    by_cases hk : k < l.length
    · have hk' : k < (incMinesL l n).length := by simpa [incMinesL] using hk
      rw [List.getD_eq_getElem _ _ hk', List.getD_eq_getElem _ _ hk]
      simp only [incMinesL, List.getElem_modify]
      by_cases h : n = k <;> simp [h]
    · rw [List.getD_eq_default _ _ (by simpa [incMinesL] using (by omega : l.length ≤ k)),
        List.getD_eq_default _ _ (by omega)]

lemma countMines_jsSwap (l : List Cell) (i j : Nat) (hi : i < l.length)
    (hj : j < l.length) :
    countMines (jsSwap l i j) = countMines l := by
  unfold jsSwap countMines
  have hlen : j < (l.set i (l.getD j default)).length := by simpa using hj
  have h1 := countP_set_add (fun cl => cl.isMine) l i (l.getD j default) hi
  have h2 := countP_set_add (fun cl => cl.isMine) (l.set i (l.getD j default)) j
    (l.getD i default) hlen
  by_cases hij : i = j
  · subst hij
    have hgl : (l.set i (l.getD i default)).getD i default = l.getD i default := by
      rw [List.getD_eq_getElem _ _ hlen, List.getElem_set, if_pos rfl]
    rw [hgl] at h2
    omega
  · have hgl : (l.set i (l.getD j default)).getD j default = l.getD j default := by
      rw [List.getD_eq_getElem _ _ hlen, List.getElem_set, if_neg hij]
      exact (List.getD_eq_getElem l default hj).symm
    rw [hgl] at h2
    omega

lemma length_shuffleGo (rng : Nat → Nat) (n : Nat) (l : List Cell) :
    (shuffleGo rng n l).length = l.length := by
  induction n generalizing l with
  | zero => rfl
  | succ k ih => rw [shuffleGo, ih]; simp [jsSwap]

lemma countMines_shuffleGo (rng : Nat → Nat) (n : Nat) (l : List Cell)
    (h : n < l.length) :
    countMines (shuffleGo rng n l) = countMines l := by
  induction n generalizing l with
  | zero => rfl
  | succ k ih =>
    rw [shuffleGo]
    have hlen : (jsSwap l (k + 1) (rng (k + 1) % (k + 2))).length = l.length := by
      simp [jsSwap]
    rw [ih _ (by omega : k < (jsSwap l (k + 1) (rng (k + 1) % (k + 2))).length)]
    exact countMines_jsSwap l (k + 1) (rng (k + 1) % (k + 2)) h
      (by have := Nat.mod_lt (rng (k + 1)) (show 0 < k + 2 by omega); omega)

lemma countMines_stampAndCount (rows cols : Nat) (l : List Cell) :
    countMines (stampAndCount rows cols l) = countMines l := by
  unfold stampAndCount
  generalize List.range (rows * cols) = ks
  induction ks generalizing l with
  | nil => rfl
  | cons k t ih =>
    rw [List.foldl_cons, ih]
    dsimp only
    have hbase : countMines (List.modify
        (fun cl => { cl with row := k / cols, col := k % cols }) k l) = countMines l :=
      countP_modify_of_pred (fun cl => cl.isMine)
        (fun cl => { cl with row := k / cols, col := k % cols }) (fun _ => rfl) k l
    by_cases h : ((List.modify
        (fun cl => { cl with row := k / cols, col := k % cols }) k l).getD k
        default).isMine = true
    · rw [if_pos h, countMines_incMines_foldl]
      exact hbase
    · rw [if_neg h]
      exact hbase

end CountingLemmas

section ConstructorTheorems

lemma getD_modify_ne (f : Cell → Cell) (i k : Nat) (l : List Cell) (h : i ≠ k) :
    (List.modify f i l).getD k default = l.getD k default := by
  by_cases hk : k < l.length
  · have hk' : k < (List.modify f i l).length := by simpa using hk
    rw [List.getD_eq_getElem _ _ hk', List.getD_eq_getElem _ _ hk,
      List.getElem_modify, if_neg h]
  · rw [List.getD_eq_default _ _ (by simpa using (by omega : l.length ≤ k)),
      List.getD_eq_default _ _ (by omega)]

lemma getD_modify_self (f : Cell → Cell) (i : Nat) (l : List Cell) (h : i < l.length) :
    (List.modify f i l).getD i default = f (l.getD i default) := by
  have h' : i < (List.modify f i l).length := by simpa using h
  rw [List.getD_eq_getElem _ _ h', List.getD_eq_getElem _ _ h, List.getElem_modify,
    if_pos rfl]

lemma countP_modify_add (p : Cell → Bool) (f : Cell → Cell) (l : List Cell)
    (i : Nat) (h : i < l.length) (hold : p (l.getD i default) = false)
    (hnew : p (f (l.getD i default)) = true) :
    (List.modify f i l).countP p = l.countP p + 1 := by
  rw [modify_eq_set _ _ _ h]
  have hadd := countP_set_add p l i (f (l.getD i default)) h
  rw [hold, hnew] at hadd
  simpa using hadd

lemma countMines_setMine_true (fl : List Cell) (idx : Nat) (h : idx < fl.length)
    (hfalse : (fl.getD idx default).isMine = false) :
    countMines (setMineL fl idx true) = countMines fl + 1 := by
  unfold setMineL countMines
  exact countP_modify_add _ _ _ _ h hfalse rfl

lemma getD_prop (l : List Cell) (P : Cell → Prop) (hP : ∀ cl ∈ l, P cl)
    (hd : P default) (k : Nat) : P (l.getD k default) := by
  by_cases hk : k < l.length
  · rw [List.getD_eq_getElem _ _ hk]
    exact hP _ (List.getElem_mem hk)
  · rw [List.getD_eq_default _ _ (by omega)]
    exact hd

lemma isMine_initialGrid_false (rows cols k : Nat) :
    (((initialGrid rows cols (fun _ _ => false)).getD k default)).isMine = false := by
  apply getD_prop _ (fun cl => cl.isMine = false)
  · intro cl hcl
    unfold initialGrid at hcl
    simp only [List.mem_flatMap, List.mem_map, List.mem_range] at hcl
    obtain ⟨i, _, j, _, hcell⟩ := hcl
    rw [← hcell]
  · rfl

lemma index_inj (cols r c r' c' : Nat) (hc : c < cols) (hc' : c' < cols)
    (h : r * cols + c = r' * cols + c') : r = r' ∧ c = c' := by
  have h1 : (r * cols + c) % cols = c := by
    rw [Nat.add_comm, Nat.add_mul_mod_self_right, Nat.mod_eq_of_lt hc]
  have h2 : (r' * cols + c') % cols = c' := by
    rw [Nat.add_comm, Nat.add_mul_mod_self_right, Nat.mod_eq_of_lt hc']
  have hcc : c = c' := by rw [← h1, ← h2, h]
  constructor
  · have hcols : 0 < cols := by omega
    have := Nat.eq_of_mul_eq_mul_right hcols (show r * cols = r' * cols by omega)
    exact this
  · exact hcc

lemma countMines_newListGo (rows cols : Nat) (ps : List (Nat × Nat))
    (fl : List Cell) (hlen : fl.length = rows * cols)
    (hvalid : ∀ p ∈ ps, p.1 < rows ∧ p.2 < cols)
    (hnodup : ps.Nodup)
    (hfresh : ∀ p ∈ ps, ((fl.getD (p.1 * cols + p.2) default).isMine) = false) :
    ∃ fl', newListGo rows cols ps fl = Except.ok fl' ∧
      countMines fl' = countMines fl + ps.length ∧ fl'.length = fl.length := by
  induction ps generalizing fl with
  | nil => exact ⟨fl, rfl, by simp, rfl⟩
  | cons p ps ih =>
    obtain ⟨r, c⟩ := p
    have hv := hvalid (r, c) (by simp)
    have hidx : r * cols + c < rows * cols := by
      have hc2 := hv.2
      have hexp : (r + 1) * cols = r * cols + cols := by ring
      have h2 : (r + 1) * cols ≤ rows * cols :=
        Nat.mul_le_mul_right cols (by have := hv.1; omega)
      omega
    have hguard : r < rows ∧ c < cols := hv
    unfold newListGo
    rw [if_pos hguard]
    have hfl1len : (setMineL fl (positionToIndex cols r c) true).length = fl.length := by
      simp [setMineL]
    have hfl2len : ((getNearbyCellsIndex rows cols (positionToIndex cols r c) true).foldl
        incMinesL (setMineL fl (positionToIndex cols r c) true)).length = fl.length := by
      rw [length_incMines_foldl]
      exact hfl1len
    have hcount1 : countMines (setMineL fl (positionToIndex cols r c) true)
        = countMines fl + 1 := by
      apply countMines_setMine_true
      · unfold positionToIndex
        omega
      · exact hfresh (r, c) (by simp)
    have hcount2 : countMines ((getNearbyCellsIndex rows cols (positionToIndex cols r c)
        true).foldl incMinesL (setMineL fl (positionToIndex cols r c) true))
        = countMines fl + 1 := by
      rw [countMines_incMines_foldl]
      exact hcount1
    obtain ⟨fl', hgo, hcnt, hln⟩ := ih
      ((getNearbyCellsIndex rows cols (positionToIndex cols r c) true).foldl
        incMinesL (setMineL fl (positionToIndex cols r c) true))
      (by rw [hfl2len]; exact hlen)
      (fun q hq => hvalid q (by simp [hq]))
      (List.Nodup.of_cons hnodup)
      (by
        intro q hq
        rw [isMine_incMines_foldl]
        have hne : positionToIndex cols r c ≠ q.1 * cols + q.2 := by
          intro heq
          have hq2 := (hvalid q (by simp [hq])).2
          unfold positionToIndex at heq
          obtain ⟨h1, h2⟩ := index_inj cols r c q.1 q.2 hv.2 hq2 heq
          have : (r, c) = q := by
            cases q
            simp_all
          rw [this] at hnodup
          exact (List.nodup_cons.mp hnodup).1 hq
        unfold setMineL
        rw [getD_modify_ne _ _ _ _ hne]
        exact hfresh q (by simp [hq]))
    refine ⟨fl', hgo, ?_, by rw [hln]; exact hfl2len⟩
    rw [hcnt, hcount2]
    simp
    omega

lemma countMines_new_count (rows cols m : Nat) (rng : Nat → Nat)
    (hr : 1 ≤ rows) (hc : 1 ≤ cols) :
    ∃ b, Minefield.new rows cols (MinesArg.count m) rng = Except.ok b ∧
      b.rows = rows ∧ b.cols = cols ∧ countMines b.flat = min m (rows * cols) := by
  have hmr : max rows 1 = rows := by omega
  have hmc : max cols 1 = cols := by omega
  cases m with
  | zero =>
    refine ⟨Board.mk rows cols (initialGrid rows cols (fun _ _ => false)), ?_, rfl, rfl, ?_⟩
    · have hdef : Minefield.new rows cols (MinesArg.count 0) rng
          = newFromList (max rows 1) (max cols 1) [] := rfl
      rw [hdef, hmr, hmc]
      rfl
    · simp only [Nat.zero_min]
      unfold countMines
      rw [List.countP_eq_zero]
      intro a ha
      unfold initialGrid at ha
      simp only [List.mem_flatMap, List.mem_map, List.mem_range] at ha
      obtain ⟨i, _, j, _, hcell⟩ := ha
      rw [← hcell]
      simp
  | succ k =>
    refine ⟨Board.mk rows cols (stampAndCount rows cols (shuffleGo rng (rows * cols - 1)
      (initialGrid rows cols (fun i j => decide (i * cols + j < k + 1))))), ?_, rfl, rfl, ?_⟩
    · have hdef : Minefield.new rows cols (MinesArg.count (k + 1)) rng
          = Except.ok (Board.mk (max rows 1) (max cols 1)
            (stampAndCount (max rows 1) (max cols 1)
              (shuffleGo rng (max rows 1 * max cols 1 - 1)
                (initialGrid (max rows 1) (max cols 1)
                  (fun i j => decide (i * max cols 1 + j < k + 1)))))) := rfl
      rw [hdef, hmr, hmc]
    · rw [countMines_stampAndCount, countMines_shuffleGo, countMines_initialGrid]
      rw [length_initialGrid]
      have : 1 ≤ rows * cols := Nat.one_le_iff_ne_zero.mpr (by positivity)
      omega

end ConstructorTheorems

/-- C4: a board constructed with a numeric mine count `m ≤ rows*cols` has
exactly `m` cells with `isMine == true`; a board constructed from a list of
distinct in-grid positions has exactly as many mines as the list has
entries. -/
theorem c4_mine_count_matches_request (rows cols : Nat) (hr : 1 ≤ rows)
    (hc : 1 ≤ cols) :
    (∀ m rng, m ≤ rows * cols →
       ∃ b, Minefield.new rows cols (MinesArg.count m) rng = Except.ok b ∧
         Board.mines b = m)
    ∧ (∀ ps rng, (∀ p ∈ ps, p.1 < rows ∧ p.2 < cols) → ps.Nodup →
       ∃ b, Minefield.new rows cols (MinesArg.list ps) rng = Except.ok b ∧
         Board.mines b = ps.length) := by
  constructor
  · intro m rng hm
    obtain ⟨b, hnew, _, _, hcnt⟩ := countMines_new_count rows cols m rng hr hc
    refine ⟨b, hnew, ?_⟩
    unfold Board.mines
    omega
  · intro ps rng hvalid hnodup
    have hmr : max rows 1 = rows := by omega
    have hmc : max cols 1 = cols := by omega
    obtain ⟨fl', hgo, hcnt, _⟩ := countMines_newListGo rows cols ps
      (initialGrid rows cols (fun _ _ => false)) (length_initialGrid rows cols _)
      hvalid hnodup (fun p _ => isMine_initialGrid_false rows cols _)
    refine ⟨Board.mk rows cols fl', ?_, ?_⟩
    · have hdef : Minefield.new rows cols (MinesArg.list ps) rng
          = newFromList (max rows 1) (max cols 1) ps := rfl
      rw [hdef, hmr, hmc]
      unfold newFromList
      rw [hgo]
    · unfold Board.mines
      rw [hcnt]
      have hz : countMines (initialGrid rows cols (fun _ _ => false)) = 0 := by
        unfold countMines
        rw [List.countP_eq_zero]
        intro a ha
        unfold initialGrid at ha
        simp only [List.mem_flatMap, List.mem_map, List.mem_range] at ha
        obtain ⟨i, _, j, _, hcell⟩ := ha
        rw [← hcell]
        simp
      omega

/-- C4 witness: a 2×2 board with a requested count of 3 mines has 3 mines; a
2×2 board built from the two distinct positions `[[0,0],[1,1]]` has 2 mines. -/
theorem c4_mine_count_matches_request_witness :
    (∃ b, Minefield.new 2 2 (MinesArg.count 3) (fun _ => 1) = Except.ok b ∧
      Board.mines b = 3)
    ∧ (∃ b, Minefield.new 2 2 (MinesArg.list [(0, 0), (1, 1)]) (fun _ => 1)
        = Except.ok b ∧ Board.mines b = 2) := by
  have h := c4_mine_count_matches_request 2 2 (by decide) (by decide)
  exact ⟨h.1 3 (fun _ => 1) (by decide),
    h.2 [(0, 0), (1, 1)] (fun _ => 1) (by decide) (by decide)⟩

/-- The board actually produced by `new Minefield(1, 2, {mines: 3})`: both
cells are mines and no error is raised. -/
def mineOverflowBoard : Board :=
  Board.mk 1 2
    [{ mines := 2, isMine := true, isOpen := false, isFlag := false, row := 0, col := 0 },
     { mines := 2, isMine := true, isOpen := false, isFlag := false, row := 0, col := 1 }]

/-- C5 counterexample: requesting 3 mines on a 1×2 board (3 > rows*cols = 2)
does **not** fail with `InvalidMineCount`: the constructor returns a board
(with every cell a mine). -/
theorem c5_counterexample_overflow_count_succeeds :
    Minefield.new 1 2 (MinesArg.count 3) (fun _ => 0) = Except.ok mineOverflowBoard
    ∧ Board.mines mineOverflowBoard = 2 ∧ 1 * 2 < 3 := by
  refine ⟨by decide, by decide, by decide⟩

/-- C5 (amended): a numeric mine count exceeding `rows*cols` is not rejected;
construction succeeds, and the resulting board has `rows*cols` mines (every
cell is a mine). -/
theorem c5_amended_overflow_count_not_rejected (rows cols m : Nat)
    (rng : Nat → Nat) (hr : 1 ≤ rows) (hc : 1 ≤ cols) (hm : rows * cols < m) :
    ∃ b, Minefield.new rows cols (MinesArg.count m) rng = Except.ok b ∧
      Board.mines b = rows * cols := by
  obtain ⟨b, hnew, _, _, hcnt⟩ := countMines_new_count rows cols m rng hr hc
  refine ⟨b, hnew, ?_⟩
  unfold Board.mines
  omega

/-- C5 witness: the amended theorem at a 1×1 board with a requested count of
2 mines. -/
theorem c5_amended_overflow_count_not_rejected_witness :
    ∃ b, Minefield.new 1 1 (MinesArg.count 2) (fun _ => 0) = Except.ok b ∧
      Board.mines b = 1 * 1 :=
  c5_amended_overflow_count_not_rejected 1 1 2 (fun _ => 0) (by decide) (by decide)
    (by decide)

/-- One step of `#getEmptyZoneIndex`'s `Set` iteration: JS `for…of` over a
`Set` visits elements appended during the iteration, so the `Set` acts as a
worklist; `emptyZoneGo` walks cursor `k` over the growing insertion-ordered
list, expanding a cell's (unflagged, unless `includeFlags`) neighbours while
the cell has `mines == 0`. -/
def emptyZoneGo (rows cols : Nat) (flat : List Cell) (includeFlags : Bool) :
    Nat → List Nat → Nat → List Nat
  | 0, zone, _ => zone
  | fuel + 1, zone, k =>
    if h : k < zone.length then
      let c := zone.get ⟨k, h⟩
      let zone' :=
        if (flat.getD c default).mines = 0 then
          (getNearbyCellsIndex rows cols c false).foldl
            (fun z n =>
              if (includeFlags || !(flat.getD n default).isFlag) && !z.contains n
              then z ++ [n] else z)
            zone
        else zone
      emptyZoneGo rows cols flat includeFlags fuel zone' (k + 1)
    else zone

/-- `#getEmptyZoneIndex(index, includeFlags)`.  The zone holds distinct cell
indices of the grid, so `rows*cols + 1` fuel always outlasts the iteration. -/
def getEmptyZoneIndex (rows cols : Nat) (flat : List Cell) (index : Nat)
    (includeFlags : Bool) : List Nat :=
  emptyZoneGo rows cols flat includeFlags (rows * cols + 1) [index] 0

/-- The body of `flatOpenEmptyZone`'s loop: open a still-closed cell and
record it in `updatedCells`. -/
def openStep (st : List Cell × List Nat) (c : Nat) : List Cell × List Nat :=
  if (st.1.getD c default).isOpen = false then (setOpenL st.1 c true, st.2 ++ [c])
  else st

/-- `flatOpenEmptyZone(index)`: open every still-closed cell of the empty
zone of `index`, appending each newly opened cell to the updated list.
Cells are recorded by their flat index (each cell object carries its
position, so this is the same identification). -/
def flatOpenEmptyZone (rows cols : Nat) (st : List Cell × List Nat) (idx : Nat) :
    List Cell × List Nat :=
  (getEmptyZoneIndex rows cols st.1 idx false).foldl openStep st

/-- The relocation scan (`open`, lines 186–194): the first index holding a
non-mine cell other than `index`, if any. -/
def relocateTarget (fl1 : List Cell) (index : Nat) : Option Nat :=
  (List.range fl1.length).find?
    (fun i => !(fl1.getD i default).isMine && !(i == index))

/-- Place the relocated mine at the scan's target (if one was found),
incrementing the adjacency counters of its 3×3 block. -/
def relocatePlace (rows cols : Nat) (fl1 : List Cell) (index : Nat) : List Cell :=
  match relocateTarget fl1 index with
  | none => fl1
  | some i => (getNearbyCellsIndex rows cols i true).foldl incMinesL (setMineL fl1 i true)

/-- First-move mine relocation (`open`, lines 181–195): clear the mine at
`index`, decrement the adjacency counters of its 3×3 block, then scan the
board in index order for the first non-mine cell other than `index` and turn
it into a mine. -/
def relocateMine (rows cols : Nat) (flat : List Cell) (index : Nat) : List Cell :=
  relocatePlace rows cols
    ((getNearbyCellsIndex rows cols index true).foldl decMinesL
      (setMineL flat index false)) index

/-- The chord statistics of an already-open cell (`open`, lines 200–209):
closed-neighbour count, flagged-neighbour count, and the list of closed
unflagged neighbours in traversal order. -/
def statsStep (flat : List Cell) (acc : Nat × Nat × List Nat) (n : Nat) :
    Nat × Nat × List Nat :=
  if (flat.getD n default).isOpen = false then
    if (flat.getD n default).isFlag then (acc.1 + 1, acc.2.1 + 1, acc.2.2)
    else (acc.1 + 1, acc.2.1, acc.2.2 ++ [n])
  else acc

def chordStats (rows cols : Nat) (flat : List Cell) (index : Nat) :
    Nat × Nat × List Nat :=
  (getNearbyCellsIndex rows cols index false).foldl (statsStep flat) (0, 0, [])

/-- Nearby-opening (`open`, lines 210–216): when enabled and the cell's
`mines` equals its flagged-neighbour count, open the empty zone of every
closed unflagged neighbour. -/
def chordOpen (rows cols : Nat) (flat : List Cell) (index : Nat)
    (flaggedCount : Nat) (u : List Nat) (enabled : Bool) : List Cell × List Nat :=
  if enabled ∧ (flat.getD index default).mines = (flaggedCount : Int) then
    u.foldl (flatOpenEmptyZone rows cols) (flat, [])
  else (flat, [])

/-- The body of the nearby-flagging loop: flag a cell and record it. -/
def flagStep (st : List Cell × List Nat) (n : Nat) : List Cell × List Nat :=
  (flagCellL st.1 n, st.2 ++ [n])

/-- Nearby-flagging (`open`, lines 217–224): when enabled and the cell's
`mines` equals its closed-neighbour count, flag every closed unflagged
neighbour.  It runs on the board state left by nearby-opening (the two read
the same precomputed statistics). -/
def chordFlag (flat : List Cell) (index : Nat) (closedCount : Nat)
    (u : List Nat) (enabled : Bool) : List Cell × List Nat :=
  if enabled ∧ (flat.getD index default).mines = (closedCount : Int) then
    u.foldl flagStep (flat, [])
  else (flat, [])

/-- The whole already-open branch of `open`: statistics, then nearby-opening,
then nearby-flagging.  Returns the final board and the two phases' updated
lists. -/
def chordAction (rows cols : Nat) (flat : List Cell) (index : Nat)
    (nearbyOpening nearbyFlagging : Bool) : List Cell × List Nat × List Nat :=
  let stats := chordStats rows cols flat index
  let stO := chordOpen rows cols flat index stats.2.1 stats.2.2 nearbyOpening
  let stF := chordFlag stO.1 index stats.1 stats.2.2 nearbyFlagging
  (stF.1, stO.2, stF.2)

/-- `open(position, {firstMove, nearbyOpening, nearbyFlagging})` (named
`openAt` here because `open` is reserved in Lean).  Validates the position,
then: a closed cell is (after first-move mine relocation, when requested)
flood-opened; an open cell with nonzero `mines` may chord-open or
chord-flag its neighbourhood.  Returns the indices of the changed cells. -/
def Minefield.openAt (b : Board) (r c : JsNum)
    (firstMove nearbyOpening nearbyFlagging : Bool) :
    Except JsError (List Nat × Board) :=
  match validatePosition b.rows b.cols r c with
  | Except.error e => Except.error e
  | Except.ok (row, col) =>
    let index := positionToIndex b.cols row col
    if (b.flat.getD index default).isOpen = false then
      let fl1 := if (b.flat.getD index default).isMine && firstMove
        then relocateMine b.rows b.cols b.flat index else b.flat
      let st := flatOpenEmptyZone b.rows b.cols (fl1, []) index
      Except.ok (st.2, Board.mk b.rows b.cols st.1)
    else if (b.flat.getD index default).mines ≠ 0 then
      if nearbyOpening || nearbyFlagging then
        let res := chordAction b.rows b.cols b.flat index nearbyOpening nearbyFlagging
        Except.ok (res.2.1 ++ res.2.2, Board.mk b.rows b.cols res.1)
      else Except.ok ([], b)
    else Except.ok ([], b)

section NeighbourLemmas

lemma index_lt (rows cols row col : Nat) (hr : row < rows) (hc : col < cols) :
    row * cols + col < rows * cols := by
  have hexp : (row + 1) * cols = row * cols + cols := by ring
  have h2 : (row + 1) * cols ≤ rows * cols := Nat.mul_le_mul_right cols (by omega)
  omega

lemma mem_getNearbyCellsIndex_lt (rows cols i : Nat) (s : Bool) (hcols : 0 < cols)
    (hi : i < rows * cols) {n : Nat}
    (hn : n ∈ getNearbyCellsIndex rows cols i s) : n < rows * cols := by
  unfold getNearbyCellsIndex at hn
  simp only [List.mem_append] at hn
  set q := i / cols
  set m := i % cols
  have hrow : q < rows := (Nat.div_lt_iff_lt_mul hcols).mpr hi
  have hcol : m < cols := Nat.mod_lt _ hcols
  have hsum : cols * q + m = i := Nat.div_add_mod i cols
  have hb1 : cols * q + cols ≤ rows * cols := by
    have h5 := Nat.mul_le_mul_right cols (show q + 1 ≤ rows by omega)
    have hexp1 : (q + 1) * cols = cols * q + cols := by ring
    omega
  have hb2 : rows ≤ q + 1 ∨ cols * q + cols + cols ≤ rows * cols := by
    rcases le_or_lt rows (q + 1) with h | h
    · exact Or.inl h
    · right
      have hexp2 : (q + 2) * cols = cols * q + cols + cols := by ring
      have h6 := Nat.mul_le_mul_right cols (show q + 2 ≤ rows by omega)
      omega
  clear_value q m
  clear hi
  rcases hb2 with hb2 | hb2 <;>
    split_ifs at hn <;>
    simp only [List.mem_singleton, List.mem_append, List.not_mem_nil, or_false,
      false_or] at hn <;>
    simp only [decide_eq_true_eq] at * <;>
    omega

lemma nodup_getNearbyCellsIndex (rows cols i : Nat) (s : Bool) (hcols : 0 < cols) :
    (getNearbyCellsIndex rows cols i s).Nodup := by
  unfold getNearbyCellsIndex
  dsimp only
  set q := i / cols
  set m := i % cols
  have hcol : m < cols := Nat.mod_lt _ hcols
  have hsum : cols * q + m = i := Nat.div_add_mod i cols
  have hge : q = 0 ∨ cols ≤ cols * q := by
    rcases Nat.eq_zero_or_pos q with h | h
    · exact Or.inl h
    · right
      calc cols = cols * 1 := by ring
        _ ≤ cols * q := Nat.mul_le_mul_left cols h
  clear_value q m
  rcases hge with hge | hge <;>
    split_ifs <;>
    simp only [List.nodup_append, List.nodup_cons, List.nodup_nil, List.mem_append,
      List.mem_singleton, List.not_mem_nil, List.disjoint_append_left,
      List.disjoint_append_right, List.disjoint_singleton,
      List.singleton_disjoint, List.disjoint_nil_left, List.disjoint_nil_right,
      List.nil_append, List.append_nil, not_false_eq_true, and_true, true_and,
      or_false, false_or, not_or] <;>
    simp only [decide_eq_true_eq] at * <;>
    omega

end NeighbourLemmas

section FloodLemmas

lemma getD_modify_field {α : Type} (f : Cell → Cell) (g : Cell → α)
    (hg : ∀ cl, g (f cl) = g cl) (i k : Nat) (l : List Cell) :
    g ((List.modify f i l).getD k default) = g (l.getD k default) := by
  by_cases hik : i = k
  · subst hik
    by_cases hl : i < l.length
    · rw [getD_modify_self _ _ _ hl, hg]
    · rw [modify_oob _ _ _ (by omega)]
  · rw [getD_modify_ne _ _ _ _ hik]

lemma foldl_guard_append_mem (cond : List Nat → Nat → Bool) (ns : List Nat)
    (z : List Nat) (n : Nat)
    (hn : n ∈ ns.foldl (fun z2 m => if cond z2 m then z2 ++ [m] else z2) z) :
    n ∈ z ∨ n ∈ ns := by
  induction ns generalizing z with
  | nil => exact Or.inl hn
  | cons a t ih =>
    rw [List.foldl_cons] at hn
    by_cases hc : cond z a = true
    · rw [if_pos hc] at hn
      rcases ih (z ++ [a]) hn with h | h
      · rcases List.mem_append.mp h with h2 | h2
        · exact Or.inl h2
        · right
          simp only [List.mem_singleton] at h2
          simp [h2]
      · right; simp [h]
    · rw [if_neg hc] at hn
      rcases ih z hn with h | h
      · exact Or.inl h
      · right; simp [h]

lemma emptyZoneGo_mem_lt (rows cols : Nat) (flat : List Cell) (incf : Bool)
    (hcols : 0 < cols) (fuel : Nat) :
    ∀ zone k, (∀ n ∈ zone, n < rows * cols) →
      ∀ n ∈ emptyZoneGo rows cols flat incf fuel zone k, n < rows * cols := by
  induction fuel with
  | zero => intro zone k hz n hn; exact hz n hn
  | succ f ih =>
    intro zone k hz n hn
    unfold emptyZoneGo at hn
    by_cases hk : k < zone.length
    · rw [dif_pos hk] at hn
      dsimp only at hn
      by_cases hm : (flat.getD (zone.get ⟨k, hk⟩) default).mines = 0
      · rw [if_pos hm] at hn
        refine ih _ _ ?_ n hn
        intro n2 hn2
        rcases foldl_guard_append_mem _ _ _ _ hn2 with h | h
        · exact hz n2 h
        · exact mem_getNearbyCellsIndex_lt rows cols _ false hcols
            (hz _ (zone.get_mem k hk)) h
      · rw [if_neg hm] at hn
        exact ih _ _ hz n hn
    · rw [dif_neg hk] at hn
      exact hz n hn

lemma getEmptyZoneIndex_mem_lt (rows cols : Nat) (flat : List Cell)
    (index : Nat) (incf : Bool) (hcols : 0 < cols) (hidx : index < rows * cols) :
    ∀ n ∈ getEmptyZoneIndex rows cols flat index incf, n < rows * cols := by
  apply emptyZoneGo_mem_lt rows cols flat incf hcols
  intro n hn
  simp only [List.mem_singleton] at hn
  omega

lemma length_openFold (ns : List Nat) (st : List Cell × List Nat) :
    ((ns.foldl openStep st).1).length = st.1.length := by
  induction ns generalizing st with
  | nil => rfl
  | cons n t ih =>
    rw [List.foldl_cons, ih]
    unfold openStep
    by_cases h : (st.1.getD n default).isOpen = false
    · rw [if_pos h]; simp [setOpenL]
    · rw [if_neg h]

lemma openStep_fst_field {α : Type} (g : Cell → α)
    (hg : ∀ cl, g { cl with isOpen := true } = g cl) (st : List Cell × List Nat)
    (n k : Nat) :
    g (((openStep st n).1).getD k default) = g (st.1.getD k default) := by
  unfold openStep
  by_cases h : (st.1.getD n default).isOpen = false
  · rw [if_pos h]
    exact getD_modify_field _ g hg n k st.1
  · rw [if_neg h]

lemma openFold_fst_field {α : Type} (g : Cell → α)
    (hg : ∀ cl, g { cl with isOpen := true } = g cl) (ns : List Nat)
    (st : List Cell × List Nat) (k : Nat) :
    g (((ns.foldl openStep st).1).getD k default) = g (st.1.getD k default) := by
  induction ns generalizing st with
  | nil => rfl
  | cons n t ih =>
    rw [List.foldl_cons, ih]
    exact openStep_fst_field g hg st n k

lemma countMines_openFold (ns : List Nat) (st : List Cell × List Nat) :
    countMines ((ns.foldl openStep st).1) = countMines st.1 := by
  induction ns generalizing st with
  | nil => rfl
  | cons n t ih =>
    rw [List.foldl_cons, ih]
    unfold openStep
    by_cases h : (st.1.getD n default).isOpen = false
    · rw [if_pos h]
      exact countP_modify_of_pred (fun cl => cl.isMine)
        (fun cl => { cl with isOpen := true }) (fun _ => rfl) n st.1
    · rw [if_neg h]

lemma isOpen_mono_openFold (ns : List Nat) (st : List Cell × List Nat) (k : Nat)
    (h : (st.1.getD k default).isOpen = true) :
    (((ns.foldl openStep st).1).getD k default).isOpen = true := by
  induction ns generalizing st with
  | nil => exact h
  | cons n t ih =>
    rw [List.foldl_cons]
    apply ih
    unfold openStep
    by_cases hc : (st.1.getD n default).isOpen = false
    · rw [if_pos hc]
      by_cases hnk : n = k
      · subst hnk
        by_cases hl : n < st.1.length
        · unfold setOpenL
          rw [getD_modify_self _ _ _ hl]
        · unfold setOpenL
          rw [modify_oob _ _ _ (by omega)]
          exact h
      · unfold setOpenL
        rw [getD_modify_ne _ _ _ _ hnk]
        exact h
    · rw [if_neg hc]
      exact h

lemma openFold_invariant (ns : List Nat) (st : List Cell × List Nat)
    (hns : ∀ n ∈ ns, n < st.1.length)
    (h1 : st.2.Nodup)
    (h2 : ∀ j ∈ st.2, (st.1.getD j default).isOpen = true) :
    (ns.foldl openStep st).2.Nodup ∧
      ∀ j ∈ (ns.foldl openStep st).2,
        (((ns.foldl openStep st).1).getD j default).isOpen = true := by
  induction ns generalizing st with
  | nil => exact ⟨h1, h2⟩
  | cons n t ih =>
    rw [List.foldl_cons]
    have hlen : (openStep st n).1.length = st.1.length := by
      unfold openStep
      by_cases h : (st.1.getD n default).isOpen = false
      · rw [if_pos h]; simp [setOpenL]
      · rw [if_neg h]
    apply ih
    · intro n2 hn2
      rw [hlen]
      exact hns n2 (by simp [hn2])
    · unfold openStep
      by_cases h : (st.1.getD n default).isOpen = false
      · rw [if_pos h]
        dsimp only
        rw [List.nodup_append]
        refine ⟨h1, List.nodup_singleton n, ?_⟩
        intro a ha hb
        simp only [List.mem_singleton] at hb
        subst hb
        have := h2 a ha
        rw [this] at h
        exact Bool.noConfusion h
      · rw [if_neg h]
        exact h1
    · unfold openStep
      by_cases h : (st.1.getD n default).isOpen = false
      · rw [if_pos h]
        intro j hj
        dsimp only at hj ⊢
        rcases List.mem_append.mp hj with hj2 | hj2
        · unfold setOpenL
          by_cases hnj : n = j
          · subst hnj
            rw [getD_modify_self _ _ _ (hns n (by simp))]
          · rw [getD_modify_ne _ _ _ _ hnj]
            exact h2 j hj2
        · simp only [List.mem_singleton] at hj2
          subst hj2
          unfold setOpenL
          rw [getD_modify_self _ _ _ (hns j (by simp))]
      · rw [if_neg h]
        exact h2

end FloodLemmas

section RelocateLemmas

lemma countP_modify_sub (p : Cell → Bool) (f : Cell → Cell) (l : List Cell)
    (i : Nat) (h : i < l.length) (hold : p (l.getD i default) = true)
    (hnew : p (f (l.getD i default)) = false) :
    (List.modify f i l).countP p + 1 = l.countP p := by
  rw [modify_eq_set _ _ _ h]
  have hadd := countP_set_add p l i (f (l.getD i default)) h
  rw [hold, hnew] at hadd
  simpa using hadd

lemma length_decMines_foldl (ns : List Nat) (l : List Cell) :
    (ns.foldl decMinesL l).length = l.length := by
  induction ns generalizing l with
  | nil => rfl
  | cons n t ih => rw [List.foldl_cons, ih]; simp [decMinesL]

lemma countMines_decMines_foldl (ns : List Nat) (l : List Cell) :
    countMines (ns.foldl decMinesL l) = countMines l := by
  induction ns generalizing l with
  | nil => rfl
  | cons n t ih =>
    rw [List.foldl_cons, ih]
    unfold countMines decMinesL
    exact countP_modify_of_pred (fun cl => cl.isMine)
      (fun cl => { cl with mines := cl.mines - 1 }) (fun _ => rfl) n l

lemma isMine_decMines_foldl (ns : List Nat) (l : List Cell) (k : Nat) :
    ((ns.foldl decMinesL l).getD k default).isMine = (l.getD k default).isMine := by
  induction ns generalizing l with
  | nil => rfl
  | cons n t ih =>
    rw [List.foldl_cons, ih]
    unfold decMinesL
    exact getD_modify_field (fun cl => { cl with mines := cl.mines - 1 })
      (fun cl => cl.isMine) (fun _ => rfl) n k l

lemma length_relocatePlace (rows cols : Nat) (fl1 : List Cell) (index : Nat) :
    (relocatePlace rows cols fl1 index).length = fl1.length := by
  unfold relocatePlace
  cases hfind : relocateTarget fl1 index with
  | none => rfl
  | some i =>
    rw [length_incMines_foldl]
    simp [setMineL]

lemma length_relocateMine (rows cols : Nat) (flat : List Cell) (index : Nat) :
    (relocateMine rows cols flat index).length = flat.length := by
  unfold relocateMine
  rw [length_relocatePlace, length_decMines_foldl]
  simp [setMineL]

lemma relocateMine_spec (rows cols : Nat) (flat : List Cell) (index : Nat)
    (hidx : index < flat.length)
    (hmine : (flat.getD index default).isMine = true)
    (hspare : ∃ j, j < flat.length ∧ j ≠ index ∧ (flat.getD j default).isMine = false) :
    ((relocateMine rows cols flat index).getD index default).isMine = false ∧
      countMines (relocateMine rows cols flat index) = countMines flat := by
  obtain ⟨j, hjlen, hjne, hjmine⟩ := hspare
  unfold relocateMine
  set fl1 := (getNearbyCellsIndex rows cols index true).foldl decMinesL
    (setMineL flat index false) with hfl1
  clear_value fl1
  have hl1 : fl1.length = flat.length := by
    rw [hfl1, length_decMines_foldl]
    simp [setMineL]
  have hfl1_mine : ∀ k, (fl1.getD k default).isMine
      = ((setMineL flat index false).getD k default).isMine := by
    intro k
    rw [hfl1]
    exact isMine_decMines_foldl _ _ k
  have hfl1_index : (fl1.getD index default).isMine = false := by
    rw [hfl1_mine index]
    unfold setMineL
    rw [getD_modify_self _ _ _ hidx]
  have hfl1_other : ∀ k, k ≠ index →
      (fl1.getD k default).isMine = (flat.getD k default).isMine := by
    intro k hk
    rw [hfl1_mine k]
    unfold setMineL
    rw [getD_modify_ne _ _ _ _ (fun h => hk h.symm)]
  have hcount1 : countMines fl1 + 1 = countMines flat := by
    rw [hfl1]
    rw [countMines_decMines_foldl]
    unfold setMineL countMines
    exact countP_modify_sub (fun cl => cl.isMine)
      (fun cl => { cl with isMine := false }) flat index hidx hmine rfl
  have hpred : (fun i => !(fl1.getD i default).isMine && !(i == index)) j = true := by
    simp only [Bool.and_eq_true, Bool.not_eq_true']
    constructor
    · rw [hfl1_other j hjne]
      exact hjmine
    · simp [hjne]
  rw [show relocatePlace rows cols fl1 index = relocatePlace rows cols fl1 index from rfl]
  unfold relocatePlace
  cases hfind : relocateTarget fl1 index with
  | none =>
    exfalso
    have := List.find?_eq_none.mp hfind j (by rw [List.mem_range, hl1]; exact hjlen)
    exact this hpred
  | some i =>
    have hp := List.find?_some hfind
    have hmem := List.mem_of_find?_eq_some hfind
    rw [List.mem_range] at hmem
    simp only [Bool.and_eq_true, Bool.not_eq_true'] at hp
    obtain ⟨hpm, hpne⟩ := hp
    have hine : i ≠ index := by
      intro h
      rw [h] at hpne
      simp at hpne
    constructor
    · rw [isMine_incMines_foldl]
      unfold setMineL
      rw [getD_modify_ne _ _ _ _ hine]
      exact hfl1_index
    · rw [countMines_incMines_foldl]
      have : countMines (setMineL fl1 i true) = countMines fl1 + 1 :=
        countMines_setMine_true fl1 i hmem hpm
      omega

end RelocateLemmas

lemma validatePosition_ok_of_lt (rows cols r c : Nat) (hr : r < rows) (hc : c < cols) :
    validatePosition rows cols (JsNum.num r) (JsNum.num c) = Except.ok (r, c) := by
  unfold validatePosition
  simp only [Int.natAbs_ofNat]
  rw [if_neg (by omega), if_neg (by omega)]

/-- A fresh 1×1 minefield whose only cell is a mine. -/
def oneMineBoard : Board :=
  Board.mk 1 1
    [{ mines := 1, isMine := true, isOpen := false, isFlag := false, row := 0, col := 0 }]

/-- C1 counterexample: on the 1×1 all-mine board, `open([0,0], {firstMove:
true})` opens the cell and relocation finds no other non-mine cell, so the
mine simply disappears: the total mine count drops from 1 to 0, falsifying
"the total number of cells with isMine==true is the same before and after
the call". -/
theorem c1_counterexample_firstMove_drops_mine :
    Minefield.openAt oneMineBoard (JsNum.num 0) (JsNum.num 0) true false false
      = Except.ok ([0], Board.mk 1 1
          [{ mines := 0, isMine := false, isOpen := true, isFlag := false,
             row := 0, col := 0 }])
    ∧ countMines oneMineBoard.flat = 1
    ∧ countMines [({ mines := 0, isMine := false, isOpen := true, isFlag := false,
                     row := 0, col := 0 } : Cell)] = 0 := by
  refine ⟨by decide, by decide, by decide⟩

/-- C1 (amended): `open` with `firstMove=true` at a valid position whose cell
is **closed**, on a board having at least one non-mine cell other than that
position, leaves the opened cell not a mine and preserves the total mine
count.  (On a board whose every other cell is a mine the relocation scan
finds no target and the mine count drops; on an already-open cell the
first-move branch is never entered.) -/
theorem c1_amended_firstMove_relocation (b : Board) (hwf : b.WF) (r c : Nat)
    (hr : r < b.rows) (hc : c < b.cols) (nO nF : Bool)
    (hclosed : (b.flat.getD (r * b.cols + c) default).isOpen = false)
    (hspare : ∃ j, j < b.flat.length ∧ j ≠ r * b.cols + c ∧
      (b.flat.getD j default).isMine = false) :
    ∃ upd b', Minefield.openAt b (JsNum.num r) (JsNum.num c) true nO nF
        = Except.ok (upd, b')
      ∧ (b'.flat.getD (r * b.cols + c) default).isMine = false
      ∧ countMines b'.flat = countMines b.flat := by
  obtain ⟨hlen, hrows, hcols⟩ := hwf
  have hidx : r * b.cols + c < b.flat.length := by
    rw [hlen]
    exact index_lt b.rows b.cols r c hr hc
  unfold Minefield.openAt
  rw [validatePosition_ok_of_lt _ _ _ _ hr hc]
  dsimp only
  have hpti : positionToIndex b.cols r c = r * b.cols + c := rfl
  rw [hpti, if_pos hclosed]
  by_cases hm : (b.flat.getD (r * b.cols + c) default).isMine = true
  · rw [hm]
    simp only [Bool.true_and]
    obtain ⟨hrel1, hrel2⟩ := relocateMine_spec b.rows b.cols b.flat
      (r * b.cols + c) hidx hm hspare
    refine ⟨_, _, rfl, ?_, ?_⟩
    · unfold flatOpenEmptyZone
      rw [openFold_fst_field (fun cl => cl.isMine) (fun _ => rfl)]
      exact hrel1
    · unfold flatOpenEmptyZone
      rw [countMines_openFold]
      exact hrel2
  · rw [Bool.not_eq_true] at hm
    rw [hm]
    simp only [Bool.false_and, if_neg (Bool.false_ne_true)]
    refine ⟨_, _, rfl, ?_, ?_⟩
    · unfold flatOpenEmptyZone
      rw [openFold_fst_field (fun cl => cl.isMine) (fun _ => rfl)]
      exact hm
    · unfold flatOpenEmptyZone
      rw [countMines_openFold]

/-- The 1×2 board with a closed mine at `[0,0]` and a spare non-mine cell. -/
def mineWithSpareBoard : Board :=
  Board.mk 1 2
    [{ mines := 1, isMine := true, isOpen := false, isFlag := false, row := 0, col := 0 },
     { mines := 1, isMine := false, isOpen := false, isFlag := false, row := 0, col := 1 }]

/-- C1 witness: the amended theorem on the 1×2 board with a mine at `[0,0]`
and a free cell at `[0,1]`. -/
theorem c1_amended_firstMove_relocation_witness :
    ∃ upd b', Minefield.openAt mineWithSpareBoard (JsNum.num 0) (JsNum.num 0)
        true false false = Except.ok (upd, b')
      ∧ (b'.flat.getD (0 * mineWithSpareBoard.cols + 0) default).isMine = false
      ∧ countMines b'.flat = countMines mineWithSpareBoard.flat :=
  c1_amended_firstMove_relocation mineWithSpareBoard (by decide) 0 0 (by decide)
    (by decide) false false (by decide) ⟨1, by decide, by decide, by decide⟩

section ChordLemmas

lemma statsFold_fst (flat : List Cell) (ns : List Nat) (acc : Nat × Nat × List Nat) :
    (ns.foldl (statsStep flat) acc).1
      = acc.1 + ns.countP (fun n => !(flat.getD n default).isOpen) := by
  induction ns generalizing acc with
  | nil => simp
  | cons n t ih =>
    rw [List.foldl_cons, ih, List.countP_cons]
    unfold statsStep
    by_cases ho : (flat.getD n default).isOpen = false
    · by_cases hf : (flat.getD n default).isFlag = true
      · rw [if_pos ho, if_pos hf]
        simp only [ho]
        simp
        omega
      · rw [if_pos ho, if_neg hf]
        simp only [ho]
        simp
        omega
    · rw [if_neg ho]
      rw [Bool.not_eq_false] at ho
      simp only [ho]
      simp

lemma statsFold_snd (flat : List Cell) (ns : List Nat) (acc : Nat × Nat × List Nat) :
    (ns.foldl (statsStep flat) acc).2.1
      = acc.2.1 + ns.countP (fun n => !(flat.getD n default).isOpen
          && (flat.getD n default).isFlag) := by
  induction ns generalizing acc with
  | nil => simp
  | cons n t ih =>
    rw [List.foldl_cons, ih, List.countP_cons]
    unfold statsStep
    by_cases ho : (flat.getD n default).isOpen = false
    · by_cases hf : (flat.getD n default).isFlag = true
      · rw [if_pos ho, if_pos hf]
        simp only [ho, hf]
        simp
        omega
      · rw [if_pos ho, if_neg hf]
        rw [Bool.not_eq_true] at hf
        simp only [ho, hf]
        simp
    · rw [if_neg ho]
      rw [Bool.not_eq_false] at ho
      simp only [ho]
      simp

lemma statsFold_u (flat : List Cell) (ns : List Nat) (acc : Nat × Nat × List Nat) :
    (ns.foldl (statsStep flat) acc).2.2
      = acc.2.2 ++ ns.filter (fun n => !(flat.getD n default).isOpen
          && !(flat.getD n default).isFlag) := by
  induction ns generalizing acc with
  | nil => simp
  | cons n t ih =>
    rw [List.foldl_cons, ih, List.filter_cons]
    unfold statsStep
    by_cases ho : (flat.getD n default).isOpen = false
    · by_cases hf : (flat.getD n default).isFlag = true
      · rw [if_pos ho, if_pos hf]
        simp only [ho, hf]
        simp
      · rw [if_pos ho, if_neg hf]
        rw [Bool.not_eq_true] at hf
        simp only [ho, hf]
        simp
    · rw [if_neg ho]
      rw [Bool.not_eq_false] at ho
      simp only [ho]
      simp

lemma closed_count_split (flat : List Cell) (ns : List Nat) :
    (ns.countP fun n => !(flat.getD n default).isOpen)
      = (ns.countP fun n => !(flat.getD n default).isOpen
          && (flat.getD n default).isFlag)
        + (ns.filter (fun n => !(flat.getD n default).isOpen
            && !(flat.getD n default).isFlag)).length := by
  induction ns with
  | nil => rfl
  | cons n t ih =>
    cases ho : (flat.getD n default).isOpen <;>
      cases hf : (flat.getD n default).isFlag <;>
      simp [List.countP_cons, List.filter_cons, ho, hf, ih,
        -List.getD_eq_getElem?_getD] <;>
      omega

lemma chordStats_closed_eq (rows cols : Nat) (flat : List Cell) (index : Nat) :
    (chordStats rows cols flat index).1
      = (chordStats rows cols flat index).2.1
        + (chordStats rows cols flat index).2.2.length := by
  unfold chordStats
  rw [statsFold_fst, statsFold_snd, statsFold_u]
  rw [closed_count_split]
  simp

lemma chordStats_u_nodup (rows cols : Nat) (flat : List Cell) (index : Nat)
    (hcols : 0 < cols) :
    (chordStats rows cols flat index).2.2.Nodup := by
  unfold chordStats
  rw [statsFold_u, List.nil_append]
  exact (nodup_getNearbyCellsIndex rows cols index false hcols).filter _

lemma chordStats_u_mem_lt (rows cols : Nat) (flat : List Cell) (index : Nat)
    (hcols : 0 < cols) (hidx : index < rows * cols) :
    ∀ n ∈ (chordStats rows cols flat index).2.2, n < rows * cols := by
  unfold chordStats
  rw [statsFold_u, List.nil_append]
  intro n hn
  exact mem_getNearbyCellsIndex_lt rows cols index false hcols hidx
    (List.mem_of_mem_filter hn)

lemma chordStats_u_closed (rows cols : Nat) (flat : List Cell) (index : Nat) :
    ∀ n ∈ (chordStats rows cols flat index).2.2,
      (flat.getD n default).isOpen = false := by
  unfold chordStats
  rw [statsFold_u, List.nil_append]
  intro n hn
  have := List.of_mem_filter hn
  simp only [Bool.and_eq_true, Bool.not_eq_true'] at this
  exact this.1

lemma flagFold_upd (u : List Nat) (fl : List Cell) (acc : List Nat) :
    (u.foldl flagStep (fl, acc)).2 = acc ++ u := by
  induction u generalizing fl acc with
  | nil => simp
  | cons n t ih =>
    rw [List.foldl_cons]
    have hstep : flagStep (fl, acc) n = (flagCellL fl n, acc ++ [n]) := rfl
    rw [hstep, ih]
    simp

lemma floodFold_fst_field {α : Type} (g : Cell → α)
    (hg : ∀ cl, g { cl with isOpen := true } = g cl) (rows cols : Nat)
    (u : List Nat) (st : List Cell × List Nat) (k : Nat) :
    g (((u.foldl (flatOpenEmptyZone rows cols) st).1).getD k default)
      = g (st.1.getD k default) := by
  induction u generalizing st with
  | nil => rfl
  | cons n t ih =>
    rw [List.foldl_cons, ih]
    unfold flatOpenEmptyZone
    exact openFold_fst_field g hg _ st k

lemma floodFold_length (rows cols : Nat) (u : List Nat) (st : List Cell × List Nat) :
    ((u.foldl (flatOpenEmptyZone rows cols) st).1).length = st.1.length := by
  induction u generalizing st with
  | nil => rfl
  | cons n t ih =>
    rw [List.foldl_cons, ih]
    unfold flatOpenEmptyZone
    exact length_openFold _ st

lemma floodFold_invariant (rows cols : Nat) (hcols : 0 < cols) (u : List Nat)
    (st : List Cell × List Nat)
    (hu : ∀ n ∈ u, n < rows * cols)
    (hlen : st.1.length = rows * cols)
    (h1 : st.2.Nodup)
    (h2 : ∀ j ∈ st.2, (st.1.getD j default).isOpen = true) :
    (u.foldl (flatOpenEmptyZone rows cols) st).2.Nodup ∧
      ∀ j ∈ (u.foldl (flatOpenEmptyZone rows cols) st).2,
        (((u.foldl (flatOpenEmptyZone rows cols) st).1).getD j default).isOpen
          = true := by
  induction u generalizing st with
  | nil => exact ⟨h1, h2⟩
  | cons n t ih =>
    rw [List.foldl_cons]
    have hzone : ∀ n2 ∈ getEmptyZoneIndex rows cols st.1 n false,
        n2 < rows * cols :=
      getEmptyZoneIndex_mem_lt rows cols st.1 n false hcols (hu n (by simp))
    have hinv := openFold_invariant (getEmptyZoneIndex rows cols st.1 n false) st
      (fun n2 hn2 => by rw [hlen]; exact hzone n2 hn2) h1 h2
    apply ih
    · intro n2 hn2
      exact hu n2 (by simp [hn2])
    · unfold flatOpenEmptyZone
      rw [length_openFold]
      exact hlen
    · exact hinv.1
    · exact hinv.2

end ChordLemmas

section ChordActionLemmas

lemma chordOpen_u_nil_full (rows cols : Nat) (flat : List Cell) (index fc : Nat)
    (en : Bool) : chordOpen rows cols flat index fc [] en = (flat, []) := by
  unfold chordOpen
  split_ifs <;> rfl

lemma chordFlag_u_nil_full (flat : List Cell) (index cc : Nat) (en : Bool) :
    chordFlag flat index cc [] en = (flat, []) := by
  unfold chordFlag
  split_ifs <;> rfl

lemma chordOpen_cond_of_ne (rows cols : Nat) (flat : List Cell) (index fc : Nat)
    (u : List Nat) (en : Bool)
    (h : (chordOpen rows cols flat index fc u en).2 ≠ []) :
    (en = true ∧ (flat.getD index default).mines = (fc : Int)) ∧ u ≠ [] := by
  constructor
  · by_cases hcond : en = true ∧ (flat.getD index default).mines = (fc : Int)
    · exact hcond
    · exfalso
      apply h
      unfold chordOpen
      rw [if_neg hcond]
  · intro hu
    rw [hu] at h
    rw [chordOpen_u_nil_full] at h
    exact h rfl

lemma chordFlag_upd_eq (flat : List Cell) (index cc : Nat) (u : List Nat)
    (en : Bool) :
    (chordFlag flat index cc u en).2
      = if en = true ∧ (flat.getD index default).mines = (cc : Int) then u
        else [] := by
  unfold chordFlag
  split_ifs with h
  · rw [flagFold_upd]
    simp
  · rfl

lemma chordOpen_mines_getD (rows cols : Nat) (flat : List Cell) (index fc : Nat)
    (u : List Nat) (en : Bool) (k : Nat) :
    (((chordOpen rows cols flat index fc u en).1).getD k default).mines
      = (flat.getD k default).mines := by
  unfold chordOpen
  split_ifs with h
  · exact floodFold_fst_field (fun cl => cl.mines) (fun _ => rfl) rows cols u
      (flat, []) k
  · rfl

lemma chordAction_u_nil_eq (rows cols : Nat) (flat : List Cell) (index : Nat)
    (hu : (chordStats rows cols flat index).2.2 = []) (nO nO' nF nF' : Bool) :
    chordAction rows cols flat index nO nF
      = chordAction rows cols flat index nO' nF' := by
  unfold chordAction
  dsimp only
  rw [hu, chordOpen_u_nil_full, chordOpen_u_nil_full, chordFlag_u_nil_full,
    chordFlag_u_nil_full]

lemma chordAction_at_most_one (rows cols : Nat) (flat : List Cell) (index : Nat)
    (nO nF : Bool) :
    (chordAction rows cols flat index nO nF).2.1 = []
      ∨ (chordAction rows cols flat index nO nF).2.2 = [] := by
  by_cases ho2 : (chordOpen rows cols flat index
      (chordStats rows cols flat index).2.1
      (chordStats rows cols flat index).2.2 nO).2 = []
  · left
    unfold chordAction
    exact ho2
  · right
    obtain ⟨⟨hen, hmf⟩, hune⟩ := chordOpen_cond_of_ne _ _ _ _ _ _ _ ho2
    have hrel := chordStats_closed_eq rows cols flat index
    have hulen : 0 < (chordStats rows cols flat index).2.2.length :=
      List.length_pos.mpr hune
    unfold chordAction
    dsimp only
    rw [chordFlag_upd_eq]
    rw [if_neg ?_]
    · intro hc
      rw [chordOpen_mines_getD, hmf] at hc
      have hcast : (chordStats rows cols flat index).2.1
          = (chordStats rows cols flat index).1 := by
        exact_mod_cast hc.2
      omega

lemma openAt_chord_eq (b : Board) (r c : Nat) (hr : r < b.rows)
    (hc : c < b.cols) (fm nO nF : Bool)
    (hopen : (b.flat.getD (r * b.cols + c) default).isOpen = true)
    (hmines : (b.flat.getD (r * b.cols + c) default).mines ≠ 0)
    (hor : (nO || nF) = true) :
    Minefield.openAt b (JsNum.num r) (JsNum.num c) fm nO nF
      = Except.ok
          ((chordAction b.rows b.cols b.flat (r * b.cols + c) nO nF).2.1
             ++ (chordAction b.rows b.cols b.flat (r * b.cols + c) nO nF).2.2,
           Board.mk b.rows b.cols
             (chordAction b.rows b.cols b.flat (r * b.cols + c) nO nF).1) := by
  unfold Minefield.openAt
  rw [validatePosition_ok_of_lt _ _ _ _ hr hc]
  dsimp only
  have hpti : positionToIndex b.cols r c = r * b.cols + c := rfl
  rw [hpti]
  rw [if_neg (by rw [hopen]; exact fun h => Bool.noConfusion h)]
  rw [if_pos hmines, if_pos hor]

lemma openAt_closed_eq (b : Board) (r c : Nat) (hr : r < b.rows)
    (hc : c < b.cols) (fm nO nF : Bool)
    (hclosed : (b.flat.getD (r * b.cols + c) default).isOpen = false) :
    Minefield.openAt b (JsNum.num r) (JsNum.num c) fm nO nF
      = Except.ok
          ((flatOpenEmptyZone b.rows b.cols
              ((if ((b.flat.getD (r * b.cols + c) default).isMine && fm) = true
                then relocateMine b.rows b.cols b.flat (r * b.cols + c)
                else b.flat), []) (r * b.cols + c)).2,
           Board.mk b.rows b.cols
             (flatOpenEmptyZone b.rows b.cols
               ((if ((b.flat.getD (r * b.cols + c) default).isMine && fm) = true
                 then relocateMine b.rows b.cols b.flat (r * b.cols + c)
                 else b.flat), []) (r * b.cols + c)).1) := by
  unfold Minefield.openAt
  rw [validatePosition_ok_of_lt _ _ _ _ hr hc]
  dsimp only
  have hpti : positionToIndex b.cols r c = r * b.cols + c := rfl
  rw [hpti]
  rw [if_pos hclosed]

lemma openAt_noop_eq (b : Board) (r c : Nat) (hr : r < b.rows)
    (hc : c < b.cols) (fm nO nF : Bool)
    (hopen : (b.flat.getD (r * b.cols + c) default).isOpen = true)
    (h : ¬((b.flat.getD (r * b.cols + c) default).mines ≠ 0)
      ∨ (nO || nF) = false) :
    Minefield.openAt b (JsNum.num r) (JsNum.num c) fm nO nF
      = Except.ok ([], b) := by
  unfold Minefield.openAt
  rw [validatePosition_ok_of_lt _ _ _ _ hr hc]
  dsimp only
  have hpti : positionToIndex b.cols r c = r * b.cols + c := rfl
  rw [hpti]
  rw [if_neg (by rw [hopen]; exact fun h2 => Bool.noConfusion h2)]
  rcases h with h | h
  · rw [if_neg h]
  · by_cases hm : (b.flat.getD (r * b.cols + c) default).mines ≠ 0
    · rw [if_pos hm, if_neg (by rw [h]; exact fun h2 => Bool.noConfusion h2)]
    · rw [if_neg hm]

end ChordActionLemmas

/-- C6: on an already-open cell with nonzero `mines`, at most one of the two
chord actions (nearby-opening, nearby-flagging) changes any cell in one
`open` call — formally, at most one of the two phases has a nonempty
updated-cell list — and when both actions are enabled and both trigger
conditions hold (the cell's `mines` equals both the flagged-neighbour count
and the closed-neighbour count), the call behaves exactly as if only the
opening action were enabled (the flagging action contributes nothing). -/
theorem c6_chord_at_most_one_opening_precedence (b : Board) (r c : Nat)
    (hr : r < b.rows) (hc : c < b.cols) (fm : Bool)
    (hopen : (b.flat.getD (r * b.cols + c) default).isOpen = true)
    (hmines : (b.flat.getD (r * b.cols + c) default).mines ≠ 0) :
    (∀ nO nF,
      (chordAction b.rows b.cols b.flat (r * b.cols + c) nO nF).2.1 = []
        ∨ (chordAction b.rows b.cols b.flat (r * b.cols + c) nO nF).2.2 = [])
    ∧ ((b.flat.getD (r * b.cols + c) default).mines
          = ((chordStats b.rows b.cols b.flat (r * b.cols + c)).2.1 : Int)
       → (b.flat.getD (r * b.cols + c) default).mines
          = ((chordStats b.rows b.cols b.flat (r * b.cols + c)).1 : Int)
       → Minefield.openAt b (JsNum.num r) (JsNum.num c) fm true true
          = Minefield.openAt b (JsNum.num r) (JsNum.num c) fm true false) := by
  constructor
  · intro nO nF
    exact chordAction_at_most_one b.rows b.cols b.flat (r * b.cols + c) nO nF
  · intro h1 h2
    have hfc_cc : (chordStats b.rows b.cols b.flat (r * b.cols + c)).2.1
        = (chordStats b.rows b.cols b.flat (r * b.cols + c)).1 := by
      exact_mod_cast h1.symm.trans h2
    have hrel := chordStats_closed_eq b.rows b.cols b.flat (r * b.cols + c)
    have hu : (chordStats b.rows b.cols b.flat (r * b.cols + c)).2.2 = [] := by
      have : (chordStats b.rows b.cols b.flat (r * b.cols + c)).2.2.length = 0 := by
        omega
      exact List.length_eq_zero.mp this
    rw [openAt_chord_eq b r c hr hc fm true true hopen hmines rfl,
      openAt_chord_eq b r c hr hc fm true false hopen hmines rfl,
      chordAction_u_nil_eq b.rows b.cols b.flat (r * b.cols + c) hu true true
        true false]

/-- A 2×2 board whose open corner has one flagged mine neighbour and one
closed free neighbour (`mines == 1 ==` flagged count `==`?): both chord
trigger conditions cannot fire together with effect. -/
def chordBoard : Board :=
  Board.mk 2 2
    [{ mines := 1, isMine := false, isOpen := true, isFlag := false, row := 0, col := 0 },
     { mines := 1, isMine := false, isOpen := false, isFlag := false, row := 0, col := 1 },
     { mines := 1, isMine := false, isOpen := false, isFlag := false, row := 1, col := 0 },
     { mines := 1, isMine := true, isOpen := false, isFlag := true, row := 1, col := 1 }]

/-- C6 witness: the theorem on the 2×2 chord board at its open corner. -/
theorem c6_chord_at_most_one_opening_precedence_witness :
    ((chordAction chordBoard.rows chordBoard.cols chordBoard.flat 0 true true).2.1 = []
      ∨ (chordAction chordBoard.rows chordBoard.cols chordBoard.flat 0 true true).2.2 = [])
    ∧ (chordBoard.flat.getD 0 default).isOpen = true := by
  constructor
  · exact (c6_chord_at_most_one_opening_precedence chordBoard 0 0 (by decide)
      (by decide) false (by decide) (by decide)).1 true true
  · decide

lemma validatePosition_ok_lt (rows cols : Nat) (r c : JsNum) (row col : Nat)
    (hrows : 1 ≤ rows) (hcols : 1 ≤ cols)
    (h : validatePosition rows cols r c = Except.ok (row, col)) :
    row < rows ∧ col < cols := by
  cases r with
  | num x =>
    cases c with
    | num y =>
      unfold validatePosition at h
      dsimp only at h
      by_cases h1 : (rows : Int) - 1 < ((x.natAbs : Nat) : Int)
      · rw [if_pos h1] at h
        cases h
      · rw [if_neg h1] at h
        by_cases h2 : (cols : Int) - 1 < ((y.natAbs : Nat) : Int)
        · rw [if_pos h2] at h
          cases h
        · rw [if_neg h2] at h
          simp only [Except.ok.injEq, Prod.mk.injEq] at h
          obtain ⟨hrw, hcl⟩ := h
          subst hrw
          subst hcl
          constructor <;> omega
    | nan =>
      unfold validatePosition at h
      cases h
  | nan =>
    unfold validatePosition at h
    cases h

lemma chordAction_nodup (rows cols : Nat) (flat : List Cell) (index : Nat)
    (hcols : 0 < cols) (hlen : flat.length = rows * cols)
    (hidx : index < rows * cols) (nO nF : Bool) :
    ((chordAction rows cols flat index nO nF).2.1
      ++ (chordAction rows cols flat index nO nF).2.2).Nodup := by
  have hone := chordAction_at_most_one rows cols flat index nO nF
  have hOnodup : (chordAction rows cols flat index nO nF).2.1.Nodup := by
    unfold chordAction chordOpen
    dsimp only
    split_ifs with hcond
    · exact (floodFold_invariant rows cols hcols _ (flat, [])
        (chordStats_u_mem_lt rows cols flat index hcols hidx) hlen
        List.nodup_nil (by simp)).1
    · exact List.nodup_nil
  have hFnodup : (chordAction rows cols flat index nO nF).2.2.Nodup := by
    unfold chordAction
    dsimp only
    rw [chordFlag_upd_eq]
    split_ifs
    · exact chordStats_u_nodup rows cols flat index hcols
    · exact List.nodup_nil
  rcases hone with h | h
  · rw [h]
    simpa using hFnodup
  · rw [h]
    simpa using hOnodup

/-- C7: every successful `open` call returns a list of changed cells without
duplicates, and an `open` call whose position fails validation raises that
error: no board is produced, so no cell is modified (validation precedes all
mutation in the source). -/
theorem c7_open_nodup_and_error_before_mutation (b : Board) (hwf : b.WF)
    (r c : JsNum) (fm nO nF : Bool) :
    (∀ upd b', Minefield.openAt b r c fm nO nF = Except.ok (upd, b')
      → upd.Nodup)
    ∧ (∀ e, validatePosition b.rows b.cols r c = Except.error e →
        Minefield.openAt b r c fm nO nF = Except.error e) := by
  obtain ⟨hlen, hrows, hcols⟩ := hwf
  constructor
  · intro upd b' h
    cases hval : validatePosition b.rows b.cols r c with
    | error e =>
      unfold Minefield.openAt at h
      rw [hval] at h
      cases h
    | ok rc =>
      obtain ⟨row, col⟩ := rc
      obtain ⟨hrow, hcol⟩ := validatePosition_ok_lt b.rows b.cols r c row col
        hrows hcols hval
      unfold Minefield.openAt at h
      rw [hval] at h
      dsimp only at h
      have hpti : positionToIndex b.cols row col = row * b.cols + col := rfl
      rw [hpti] at h
      have hidxlt : row * b.cols + col < b.rows * b.cols :=
        index_lt _ _ _ _ hrow hcol
      by_cases hcl : (b.flat.getD (row * b.cols + col) default).isOpen = false
      · rw [if_pos hcl] at h
        simp only [Except.ok.injEq, Prod.mk.injEq] at h
        obtain ⟨h1, h2⟩ := h
        have hfl1len : (if ((b.flat.getD (row * b.cols + col) default).isMine
              && fm) = true
            then relocateMine b.rows b.cols b.flat (row * b.cols + col)
            else b.flat).length = b.rows * b.cols := by
          split_ifs
          · rw [length_relocateMine]
            exact hlen
          · exact hlen
        have hinv := openFold_invariant
          (getEmptyZoneIndex b.rows b.cols
            (if ((b.flat.getD (row * b.cols + col) default).isMine && fm) = true
             then relocateMine b.rows b.cols b.flat (row * b.cols + col)
             else b.flat) (row * b.cols + col) false)
          ((if ((b.flat.getD (row * b.cols + col) default).isMine && fm) = true
            then relocateMine b.rows b.cols b.flat (row * b.cols + col)
            else b.flat), [])
          (by
            intro n hn
            rw [hfl1len]
            exact getEmptyZoneIndex_mem_lt b.rows b.cols _ _ false hcols hidxlt
              n hn)
          List.nodup_nil (by simp)
        rw [← h1]
        exact hinv.1
      · rw [if_neg hcl] at h
        by_cases hm : (b.flat.getD (row * b.cols + col) default).mines ≠ 0
        · rw [if_pos hm] at h
          by_cases hor : (nO || nF) = true
          · rw [if_pos hor] at h
            simp only [Except.ok.injEq, Prod.mk.injEq] at h
            rw [← h.1]
            exact chordAction_nodup b.rows b.cols b.flat (row * b.cols + col)
              hcols hlen hidxlt nO nF
          · rw [if_neg hor] at h
            simp only [Except.ok.injEq, Prod.mk.injEq] at h
            rw [← h.1]
            exact List.nodup_nil
        · rw [if_neg hm] at h
          simp only [Except.ok.injEq, Prod.mk.injEq] at h
          rw [← h.1]
          exact List.nodup_nil
  · intro e he
    unfold Minefield.openAt
    rw [he]

/-- C7 witness: the theorem on the 1×1 zero-mine board; opening the cell
returns the duplicate-free `[0]`, and validating the bad column `[0, 5]`
raises the error before any mutation. -/
theorem c7_open_nodup_and_error_before_mutation_witness :
    (∀ upd b', Minefield.openAt oneByOne (JsNum.num 0) (JsNum.num 0) false
        false false = Except.ok (upd, b') → upd.Nodup)
    ∧ (∀ e, validatePosition oneByOne.rows oneByOne.cols (JsNum.num 0)
          (JsNum.num 0) = Except.error e →
        Minefield.openAt oneByOne (JsNum.num 0) (JsNum.num 0) false false false
          = Except.error e) :=
  c7_open_nodup_and_error_before_mutation oneByOne (by decide) (JsNum.num 0)
    (JsNum.num 0) false false false

/-- A "linked group": in the source, an array of distinct closed unflagged
cell indices carrying an extra `mines` number property. -/
structure LinkedGroup where
  cells : List Nat
  mines : Int
deriving Repr, DecidableEq, Inhabited

/-- `matrixIncludesArr(matrix, target)`: `arraysAreEqual` compares only the
array elements (the `mines` property is not an element), so group membership
is order-sensitive equality of the cell lists. -/
def matrixIncludesArr (gs : List LinkedGroup) (target : List Nat) : Bool :=
  gs.any (fun g => g.cells == target)

/-- `arrIncludesEveryItemOfArr(arr1, arr2)`. -/
def arrIncludesEvery (arr1 arr2 : List Nat) : Bool :=
  arr2.all (fun el => arr1.contains el)

/-- `arrIncludesSomeItemOfArr(arr1, arr2)`. -/
def arrIncludesSome (arr1 arr2 : List Nat) : Bool :=
  arr2.any (fun x => arr1.contains x)

/-- JS UTF-16 lexicographic order on strings, restricted to the decimal
digit/comma strings produced below. -/
def strLeChars : List Char → List Char → Bool
  | [], _ => true
  | _ :: _, [] => false
  | a :: as, b :: bs => if a = b then strLeChars as bs else decide (a < b)

/-- `n.toString()` as a character list. -/
def jsStrOfNat (n : Nat) : List Char :=
  Nat.toDigits 10 n

/-- Stable insertion into a sorted list (JS `Array.prototype.sort` is
required to be stable): keep `y` before `x` whenever `key y ≤ key x`. -/
def insertByKey {α : Type} (key : α → List Char) (x : α) : List α → List α
  | [] => [x]
  | y :: ys => if strLeChars (key y) (key x) then y :: insertByKey key x ys
    else x :: y :: ys

/-- JS default `sort()`: stable sort comparing elements as strings. -/
def jsSortBy {α : Type} (key : α → List Char) (l : List α) : List α :=
  l.foldl (fun acc x => insertByKey key x acc) []

/-- `linkedGroup.sort()`: numbers compare as their decimal strings. -/
def jsSortNats (l : List Nat) : List Nat :=
  jsSortBy jsStrOfNat l

/-- An array of numbers converts to the comma-joined decimal string. -/
def groupKey (cells : List Nat) : List Char :=
  match cells with
  | [] => []
  | n :: rest => jsStrOfNat n ++ rest.flatMap (fun m => ',' :: jsStrOfNat m)

/-- `allLinkedGroups.sort()`: groups compare as their joined strings. -/
def jsSortGroups (gs : List LinkedGroup) : List LinkedGroup :=
  jsSortBy (fun g => groupKey g.cells) gs

/-- `reset()`: close all cells and remove all flags. -/
def Minefield.reset (b : Board) : Board :=
  { b with flat := b.flat.map (fun cl => { cl with isOpen := false, isFlag := false }) }

/-- The mutable state of `isSolvableFrom`'s main loop: the (aliased) flat
cell array, the `importantCells` worklist, the `updates` flag and the
current iteration's `allLinkedGroups`. -/
structure SolveState where
  flat : List Cell
  important : List Nat
  updates : Bool
  groups : List LinkedGroup
deriving Repr

/-- 1st try (`isSolvableFrom`, lines 271–318): open empty zones of
zero-count cells, open/flag neighbours by exact flag/closed counts, or
register the unflagged neighbour set as a linked group.  The `for…of` visits
cells appended to `importantCells` during the loop, hence the cursor `k`
over the growing list. -/
def pass1Step (rows cols : Nat) (st : SolveState) (i : Nat) : SolveState :=
  if (st.flat.getD i default).mines = 0 then
          (getEmptyZoneIndex rows cols st.flat i false).foldl
            (fun s e =>
              if (s.flat.getD e default).isOpen = false then
                { s with flat := setOpenL s.flat e true,
                         important := s.important ++ [e], updates := true }
              else s)
            st
        else
          let stats := (getNearbyCellsIndex rows cols i false).foldl
            (statsStep st.flat) (0, 0, [])
          if 0 < stats.2.2.length then
            let s1 :=
              if (st.flat.getD i default).mines = (stats.2.1 : Int) then
                { st with
                  flat := stats.2.2.foldl (fun fl e => setOpenL fl e true) st.flat,
                  important := st.important ++ stats.2.2,
                  updates := true }
              else st
            let s2 :=
              if (s1.flat.getD i default).mines = (stats.1 : Int) then
                { s1 with
                  flat := stats.2.2.foldl (fun fl e => flagCellL fl e) s1.flat,
                  updates := true }
              else s1
            if (stats.2.1 : Int) < (s2.flat.getD i default).mines then
              if matrixIncludesArr s2.groups stats.2.2 = false then
                { s2 with groups := s2.groups
                    ++ [{ cells := stats.2.2,
                          mines := (s2.flat.getD i default).mines - (stats.2.1 : Int) }] }
              else s2
            else s2
          else st

def pass1Go (rows cols : Nat) : Nat → SolveState → Nat → SolveState
  | 0, st, _ => st
  | fuel + 1, st, k =>
    if hk : k < st.important.length then
      pass1Go rows cols fuel (pass1Step rows cols st (st.important.get ⟨k, hk⟩))
        (k + 1)
    else st

/-- The closed/flagged neighbour statistics used by the shifting loop. -/
def closedFlaggedStats (rows cols : Nat) (flat : List Cell) (i : Nat) :
    List Nat × Nat :=
  (getNearbyCellsIndex rows cols i false).foldl
    (fun acc n =>
      if (flat.getD n default).isFlag then (acc.1, acc.2 + 1)
      else if (flat.getD n default).isOpen = false then (acc.1 ++ [n], acc.2)
      else acc)
    ([], 0)

/-- Inner loop of the shifting pass (lines 335–349 / 524–537): `for…of` over
`allLinkedGroups`, which grows during the iteration (cursor `g`), producing
shifted groups and accumulating the per-cell group sum. -/
def shiftInnerGo (flat : List Cell) (i : Nat) (nearbyClosed : List Nat)
    (fc : Nat) :
    Nat → List LinkedGroup → LinkedGroup → Bool → Nat →
      List LinkedGroup × LinkedGroup × Bool
  | 0, groups, sum, su, _ => (groups, sum, su)
  | fuel + 1, groups, sum, su, g =>
    if hg : g < groups.length then
      let lg := groups.get ⟨g, hg⟩
      let res :=
        if arrIncludesEvery nearbyClosed lg.cells = true
            ∧ nearbyClosed.length ≠ lg.cells.length then
          let shiftCells := nearbyClosed.filter (fun cl2 => !(lg.cells.contains cl2))
          let shiftMines := (flat.getD i default).mines - lg.mines - (fc : Int)
          let push :=
            if 0 < shiftCells.length ∧ 0 < shiftMines
                ∧ matrixIncludesArr groups shiftCells = false then
              (groups ++ [{ cells := shiftCells, mines := shiftMines }], true)
            else (groups, su)
          let sum1 :=
            if arrIncludesSome sum.cells lg.cells = false then
              { cells := sum.cells ++ lg.cells, mines := sum.mines + lg.mines }
            else sum
          (push.1, sum1, push.2)
        else (groups, sum, su)
      shiftInnerGo flat i nearbyClosed fc fuel res.1 res.2.1 res.2.2 (g + 1)
    else (groups, sum, su)

/-- One `for (let i of importantCells)` sweep of the shifting pass. -/
def shiftForGo (rows cols : Nat) (flat : List Cell) (important : List Nat) :
    Nat → List LinkedGroup → Bool → Nat → List LinkedGroup × Bool
  | 0, groups, su, _ => (groups, su)
  | fuel + 1, groups, su, k =>
    if hk : k < important.length then
      let i := important.get ⟨k, hk⟩
      let stats := closedFlaggedStats rows cols flat i
      let res := shiftInnerGo flat i stats.1 stats.2 fuel groups ⟨[], 0⟩ su 0
      let next :=
        if 0 < res.2.1.mines ∧ matrixIncludesArr res.1 res.2.1.cells = false then
          (res.1 ++ [res.2.1], true)
        else (res.1, res.2.2)
      shiftForGo rows cols flat important fuel next.1 next.2 (k + 1)
    else (groups, su)

/-- `while (shiftUpdates)` (lines 321–355 / 510–543): repeat the sweep until
no new linked group is produced. -/
def shiftLoopGo (rows cols : Nat) (flat : List Cell) (important : List Nat) :
    Nat → List LinkedGroup → List LinkedGroup
  | 0, groups => groups
  | fuel + 1, groups =>
    let res := shiftForGo rows cols flat important (fuel + 1) groups false 0
    if res.2 then shiftLoopGo rows cols flat important fuel res.1
    else res.1

/-- The per-group body of the 2nd try (lines 358–389): apply a linked group
to an important cell's neighbourhood, flagging or opening its unknown
cells. -/
def pass2bInner (i : Nat) (nearby : List Nat) (st : SolveState)
    (lg : LinkedGroup) : SolveState :=
  if arrIncludesSome lg.cells nearby = true then
    let acc := nearby.foldl
      (fun acc n =>
        if (st.flat.getD n default).isFlag then (acc.1 + 1, acc.2)
        else if (st.flat.getD n default).isOpen = false
            ∧ lg.cells.contains n = false then
          (acc.1, acc.2 ++ [n])
        else acc)
      ((0 : Nat), ([] : List Nat))
    if 0 < acc.2.length then
      let uncontained := (lg.cells.filter (fun x => !(nearby.contains x))).length
      if (st.flat.getD i default).mines
          = (acc.1 : Int) + lg.mines + (acc.2.length : Int) then
        { st with flat := acc.2.foldl (fun fl e => flagCellL fl e) st.flat,
                  updates := true }
      else if (st.flat.getD i default).mines
            = (acc.1 : Int) + lg.mines - (uncontained : Int)
          ∧ st.updates = false then
        acc.2.foldl
          (fun s e =>
            if (s.flat.getD e default).isFlag = false then
              { s with flat := setOpenL s.flat e true,
                       important := s.important ++ [e], updates := true }
            else s)
          st
      else st
    else st
  else st

/-- 2nd try (lines 356–390): cursor over the growing `importantCells`, fixed
iteration over the linked groups. -/
def pass2bGo (rows cols : Nat) : Nat → SolveState → Nat → SolveState
  | 0, st, _ => st
  | fuel + 1, st, k =>
    if hk : k < st.important.length then
      let i := st.important.get ⟨k, hk⟩
      let nearby := getNearbyCellsIndex rows cols i false
      let st' := st.groups.foldl (pass2bInner i nearby) st
      pass2bGo rows cols fuel st' (k + 1)
    else st

/-- 3rd try (lines 392–434): when flag and mine totals agree, open every
closed unflagged cell (without setting `updates`); otherwise sort the
groups JS-style, sum the pairwise-disjoint ones, and open everything
outside a group accounting for all remaining mines. -/
def pass3 (st : SolveState) : SolveState :=
  let flagsCount := st.flat.countP (fun cl => cl.isFlag)
  let minesCount := st.flat.countP (fun cl => cl.isMine)
  if flagsCount = minesCount then
    (List.range st.flat.length).foldl
      (fun s i =>
        if (s.flat.getD i default).isOpen = false
            ∧ (s.flat.getD i default).isFlag = false then
          { s with flat := setOpenL s.flat i true, important := s.important ++ [i] }
        else s)
      st
  else
    let sorted := jsSortGroups (st.groups.map (fun g =>
      { g with cells := jsSortNats g.cells }))
    let sum := sorted.foldl
      (fun acc g =>
        if arrIncludesSome acc.cells g.cells = false then
          { cells := acc.cells ++ g.cells, mines := acc.mines + g.mines }
        else acc)
      (⟨[], 0⟩ : LinkedGroup)
    let groups2 := sorted ++ [sum]
    groups2.foldl
      (fun s g =>
        if g.mines = (minesCount : Int) - (flagsCount : Int) then
          (List.range s.flat.length).foldl
            (fun s2 i =>
              if (s2.flat.getD i default).isOpen = false
                  ∧ (s2.flat.getD i default).isFlag = false
                  ∧ g.cells.contains i = false then
                { s2 with flat := setOpenL s2.flat i true,
                          important := s2.important ++ [i], updates := true }
              else s2)
            s
        else s)
      { st with groups := groups2 }

/-- One body of `while (updates)` (lines 260–435): reset `updates` and the
linked groups, filter the frontier, then the three tries in order. -/
def solveIter (rows cols fuel : Nat) (st : SolveState) : SolveState :=
  let st0 : SolveState := { st with updates := false, groups := [] }
  let st1 : SolveState := { st0 with important := st0.important.filter (fun cell =>
    (getNearbyCellsIndex rows cols cell false).any (fun n =>
      !(st0.flat.getD n default).isOpen && !(st0.flat.getD n default).isFlag)) }
  let st2 := pass1Go rows cols fuel st1 0
  let st3 :=
    if st2.updates = false then
      pass2bGo rows cols fuel
        { st2 with groups :=
            (shiftLoopGo rows cols st2.flat st2.important fuel st2.groups) } 0
    else st2
  if st3.updates = false then pass3 st3 else st3

/-- The solver loop, fuelled: each productive iteration opens or flags at
least one cell, so `2*cells + 2` iterations always reach the fixpoint. -/
def solveLoopGo (rows cols : Nat) : Nat → SolveState → SolveState
  | 0, st => st
  | fuel + 1, st =>
    if st.updates then solveLoopGo rows cols fuel (solveIter rows cols (fuel + 1) st)
    else st

/-- The part of `isSolvableFrom` after the early-exit check: build
`importantCells` from the open cells, run the loop, optionally `reset()`,
and report whether the frontier emptied. -/
def solveMain (b : Board) (restore : Bool) (fuel : Nat) : Bool × Board :=
  let important := (List.range b.flat.length).foldl
    (fun acc i => if (b.flat.getD i default).isOpen then acc ++ [i] else acc) []
  let st := solveLoopGo b.rows b.cols fuel
    { flat := b.flat, important := important, updates := true, groups := [] }
  let b1 := Board.mk b.rows b.cols st.flat
  let b2 := if restore then Minefield.reset b1 else b1
  (decide (st.important.length = 0), b2)

/-- `isSolvableFrom(position, restore)`: open the start cell; if its `mines`
count is nonzero, report unsolvable immediately (re-closing it when
`restore`); otherwise run the constraint-propagation loop.  An empty
position array (`row`/`col` undefined) is `none`: start from the current
state. -/
def Minefield.isSolvableFrom (b : Board) (pos : Option (JsNum × JsNum))
    (restore : Bool) (fuel : Nat) : Except JsError (Bool × Board) :=
  match pos with
  | some (r, c) =>
    match validatePosition b.rows b.cols r c with
    | Except.error e => Except.error e
    | Except.ok (row, col) =>
      let idx := positionToIndex b.cols row col
      let fl0 := setOpenL b.flat idx true
      if (fl0.getD idx default).mines ≠ 0 then
        Except.ok (false, Board.mk b.rows b.cols
          (if restore then setOpenL fl0 idx false else fl0))
      else Except.ok (solveMain (Board.mk b.rows b.cols fl0) restore fuel)
  | none => Except.ok (solveMain b restore fuel)

section SolverLengthLemmas

lemma length_foldl_state {β : Type} (f : SolveState → β → SolveState)
    (hf : ∀ s x, (f s x).flat.length = s.flat.length) (l : List β)
    (st : SolveState) : ((l.foldl f st).flat).length = st.flat.length := by
  induction l generalizing st with
  | nil => rfl
  | cons x t ih => rw [List.foldl_cons, ih, hf]

lemma length_foldl_cells {β : Type} (f : List Cell → β → List Cell)
    (hf : ∀ l x, (f l x).length = l.length) (l : List β) (fl : List Cell) :
    (l.foldl f fl).length = fl.length := by
  induction l generalizing fl with
  | nil => rfl
  | cons x t ih => rw [List.foldl_cons, ih, hf]

lemma length_foldl_setOpen (u : List Nat) (fl : List Cell) (b : Bool) :
    (u.foldl (fun l e => setOpenL l e b) fl).length = fl.length :=
  length_foldl_cells _ (fun l x => by simp [setOpenL]) u fl

lemma length_foldl_flag (u : List Nat) (fl : List Cell) :
    (u.foldl (fun l e => flagCellL l e) fl).length = fl.length :=
  length_foldl_cells _ (fun l x => by simp [flagCellL]) u fl

lemma length_pass1Step (rows cols : Nat) (st : SolveState) (i : Nat) :
    (pass1Step rows cols st i).flat.length = st.flat.length := by
  unfold pass1Step
  by_cases h1 : (st.flat.getD i default).mines = 0
  · rw [if_pos h1]
    apply length_foldl_state
    intro s x
    split_ifs <;> simp [setOpenL]
  · rw [if_neg h1]
    dsimp only
    split_ifs <;> dsimp only <;>
      simp only [length_foldl_setOpen, length_foldl_flag]

lemma length_pass1Go (rows cols fuel : Nat) (st : SolveState) (k : Nat) :
    (pass1Go rows cols fuel st k).flat.length = st.flat.length := by
  induction fuel generalizing st k with
  | zero => rfl
  | succ n ih =>
    unfold pass1Go
    split_ifs
    · rw [ih, length_pass1Step]
    · rfl

lemma length_pass2bInner (i : Nat) (nearby : List Nat) (st : SolveState)
    (lg : LinkedGroup) :
    (pass2bInner i nearby st lg).flat.length = st.flat.length := by
  unfold pass2bInner
  dsimp only
  split_ifs <;> try rfl
  · exact length_foldl_flag _ _
  · exact length_foldl_state _ (fun s x => by split_ifs <;> simp [setOpenL]) _ _

lemma length_pass2bGo (rows cols fuel : Nat) (st : SolveState) (k : Nat) :
    (pass2bGo rows cols fuel st k).flat.length = st.flat.length := by
  induction fuel generalizing st k with
  | zero => rfl
  | succ n ih =>
    unfold pass2bGo
    split_ifs
    · rw [ih, length_foldl_state]
      intro s x
      exact length_pass2bInner _ _ _ _
    · rfl

lemma length_pass3 (st : SolveState) :
    (pass3 st).flat.length = st.flat.length := by
  unfold pass3
  dsimp only
  split_ifs
  · exact length_foldl_state _ (fun s x => by split_ifs <;> simp [setOpenL]) _ _
  · rw [length_foldl_state]
    intro s x
    split_ifs
    · exact length_foldl_state _ (fun s2 y => by split_ifs <;> simp [setOpenL]) _ _
    · rfl

lemma length_solveIter (rows cols fuel : Nat) (st : SolveState) :
    (solveIter rows cols fuel st).flat.length = st.flat.length := by
  unfold solveIter
  dsimp only
  split_ifs <;>
    simp only [length_pass3, length_pass2bGo, length_pass1Go]

lemma length_solveLoopGo (rows cols fuel : Nat) (st : SolveState) :
    (solveLoopGo rows cols fuel st).flat.length = st.flat.length := by
  induction fuel generalizing st with
  | zero => rfl
  | succ n ih =>
    unfold solveLoopGo
    split_ifs
    · rw [ih, length_solveIter]
    · rfl

lemma length_reset (b : Board) :
    (Minefield.reset b).flat.length = b.flat.length := by
  simp [Minefield.reset]

lemma reset_rows_cols (b : Board) :
    (Minefield.reset b).rows = b.rows ∧ (Minefield.reset b).cols = b.cols := by
  constructor <;> rfl

lemma length_solveMain (b : Board) (restore : Bool) (fuel : Nat) :
    (solveMain b restore fuel).2.flat.length = b.flat.length := by
  unfold solveMain
  dsimp only
  split_ifs
  · rw [length_reset]
    exact length_solveLoopGo _ _ _ _
  · exact length_solveLoopGo _ _ _ _

end SolverLengthLemmas

/-- **C2.**  For every well-formed board and every valid start position whose
cell is a mine or has a nonzero adjacent-mine count, `isSolvableFrom` with
that position returns `false` for every `restore` flag and every fuel — in
particular for fuel `0`, i.e. without running a single iteration of the
constraint-propagation loop.  (The invariant hypothesis reflects the
constructor's `includeSelf=true` adjacency counting, under which every mine
cell has `mines ≥ 1`; the source's early exit tests only `cell.mines !== 0`.) -/
theorem c2_nonzero_start_unsolvable_immediately (b : Board) (r c : Nat)
    (hwf : b.WF) (hr : r < b.rows) (hc : c < b.cols)
    (hinv : ∀ cl ∈ b.flat, cl.isMine = true → cl.mines ≠ 0)
    (htrig : (b.flat.getD (positionToIndex b.cols r c) default).isMine = true
      ∨ (b.flat.getD (positionToIndex b.cols r c) default).mines ≠ 0) :
    ∀ restore fuel, ∃ b',
      Minefield.isSolvableFrom b (some (JsNum.num r, JsNum.num c)) restore fuel
        = Except.ok (false, b') := by
  intro restore fuel
  unfold Minefield.isSolvableFrom
  dsimp only
  rw [validatePosition_ok_of_lt _ _ _ _ hr hc]
  dsimp only
  have hidx : positionToIndex b.cols r c < b.flat.length := by
    unfold positionToIndex
    rw [hwf.1]
    calc r * b.cols + c < r * b.cols + b.cols := by omega
      _ = (r + 1) * b.cols := by ring
      _ ≤ b.rows * b.cols := Nat.mul_le_mul_right _ (by omega)
  have hm : ((setOpenL b.flat (positionToIndex b.cols r c) true).getD
      (positionToIndex b.cols r c) default).mines
      = (b.flat.getD (positionToIndex b.cols r c) default).mines := by
    unfold setOpenL
    exact getD_modify_field (fun cl => { cl with isOpen := true }) Cell.mines
      (fun _ => rfl) _ _ _
  have hne : (b.flat.getD (positionToIndex b.cols r c) default).mines ≠ 0 := by
    rcases htrig with h | h
    · apply hinv _ _ h
      rw [List.getD_eq_getElem _ _ hidx]
      exact List.getElem_mem hidx
    · exact h
  rw [if_pos (by rw [hm]; exact hne)]
  exact ⟨_, rfl⟩

/-- C2 witness: on the fresh 1×1 all-mine board the start cell is a mine
(with `mines = 1`), and `isSolvableFrom` answers `false` at once. -/
theorem c2_nonzero_start_unsolvable_immediately_witness :
    oneMineBoard.WF ∧ (0 : Nat) < oneMineBoard.rows ∧ (0 : Nat) < oneMineBoard.cols
      ∧ (∃ b', Minefield.isSolvableFrom oneMineBoard
          (some (JsNum.num 0, JsNum.num 0)) true 0 = Except.ok (false, b')) :=
  ⟨by decide, by decide, by decide,
    c2_nonzero_start_unsolvable_immediately oneMineBoard 0 0 (by decide)
      (by decide) (by decide) (by intro cl hcl hm; fin_cases hcl <;> decide)
      (Or.inl (by decide)) true 0⟩

/-- A 1×1 minefield with no mines whose only cell carries a user flag. -/
def flaggedOneByOne : Board :=
  Board.mk 1 1
    [{ mines := 0, isMine := false, isOpen := false, isFlag := true, row := 0, col := 0 }]

/-- C3 counterexample: on a 1×1 board whose only cell is flagged,
`isSolvableFrom([0,0], true)` returns with the flag cleared: the "restore"
step is `reset()`, which wipes all open/flag state instead of restoring the
pre-call state, so the cell's `isFlag` flips from `true` to `false`. -/
theorem c3_counterexample_restore_clears_flags :
    Minefield.isSolvableFrom flaggedOneByOne (some (JsNum.num 0, JsNum.num 0)) true 8
      = Except.ok (true, Board.mk 1 1
        [{ mines := 0, isMine := false, isOpen := false, isFlag := false, row := 0, col := 0 }])
    ∧ (flaggedOneByOne.flat.getD 0 default).isFlag = true
    ∧ ((Board.mk 1 1
        [{ mines := 0, isMine := false, isOpen := false, isFlag := false, row := 0,
           col := 0 }]).flat.getD 0 default).isFlag = false := by decide

lemma reset_closed (b : Board) :
    ∀ cl ∈ (Minefield.reset b).flat, cl.isOpen = false ∧ cl.isFlag = false := by
  intro cl hcl
  simp only [Minefield.reset, List.mem_map] at hcl
  obtain ⟨a, _, rfl⟩ := hcl
  exact ⟨rfl, rfl⟩

lemma solveMain_restore_closed (b : Board) (fuel : Nat) :
    ∀ cl ∈ (solveMain b true fuel).2.flat, cl.isOpen = false ∧ cl.isFlag = false := by
  unfold solveMain
  dsimp only
  rw [if_pos rfl]
  exact reset_closed _

/-- **C3 (amended).**  On a board whose cells are all closed and unflagged
(e.g. a freshly constructed minefield), `isSolvableFrom` with a valid start
position and `restore = true` returns a board of the same size in which every
cell's `isOpen` and `isFlag` equal their pre-call values.  (On a general
board this fails: the restore step is `reset()`, which clears every open and
flag bit rather than restoring them, and the early-exit branch closes the
start cell even if it was open before the call.) -/
theorem c3_amended_restore_on_fresh_board (b : Board) (r c : Nat)
    (hwf : b.WF) (hr : r < b.rows) (hc : c < b.cols)
    (hclosed : ∀ cl ∈ b.flat, cl.isOpen = false ∧ cl.isFlag = false) :
    ∀ fuel, ∃ res b',
      Minefield.isSolvableFrom b (some (JsNum.num r, JsNum.num c)) true fuel
        = Except.ok (res, b')
      ∧ b'.flat.length = b.flat.length
      ∧ ∀ k : Nat,
          (b'.flat.getD k default).isOpen = (b.flat.getD k default).isOpen
          ∧ (b'.flat.getD k default).isFlag = (b.flat.getD k default).isFlag := by
  intro fuel
  unfold Minefield.isSolvableFrom
  dsimp only
  rw [validatePosition_ok_of_lt _ _ _ _ hr hc]
  dsimp only
  have hidx : positionToIndex b.cols r c < b.flat.length := by
    unfold positionToIndex
    rw [hwf.1]
    calc r * b.cols + c < r * b.cols + b.cols := by omega
      _ = (r + 1) * b.cols := by ring
      _ ≤ b.rows * b.cols := Nat.mul_le_mul_right _ (by omega)
  set idx := positionToIndex b.cols r c
  have horig : ∀ k, k < b.flat.length →
      (b.flat.getD k default).isOpen = false
        ∧ (b.flat.getD k default).isFlag = false := by
    intro k hk
    rw [List.getD_eq_getElem _ _ hk]
    exact hclosed _ (List.getElem_mem hk)
  by_cases hm : ((setOpenL b.flat idx true).getD idx default).mines ≠ 0
  · rw [if_pos hm, if_pos rfl]
    refine ⟨false, _, rfl, ?_, ?_⟩
    · simp [setOpenL]
    · intro k
      by_cases hk : idx = k
      · subst hk
        show ((setOpenL (setOpenL b.flat idx true) idx false).getD idx default).isOpen
            = _ ∧ _
        unfold setOpenL
        rw [getD_modify_self _ _ _ (by simpa using hidx),
          getD_modify_self _ _ _ hidx]
        exact ⟨(horig idx hidx).1.symm, rfl⟩
      · show ((setOpenL (setOpenL b.flat idx true) idx false).getD k default).isOpen
            = _ ∧ _
        unfold setOpenL
        rw [getD_modify_ne _ _ _ _ hk, getD_modify_ne _ _ _ _ hk]
        exact ⟨rfl, rfl⟩
  · rw [if_neg hm]
    refine ⟨(solveMain (Board.mk b.rows b.cols (setOpenL b.flat idx true)) true fuel).1,
      (solveMain (Board.mk b.rows b.cols (setOpenL b.flat idx true)) true fuel).2,
      rfl, ?_, ?_⟩
    · rw [length_solveMain]
      simp [setOpenL]
    · intro k
      have hlen : (solveMain (Board.mk b.rows b.cols (setOpenL b.flat idx true))
          true fuel).2.flat.length = b.flat.length := by
        rw [length_solveMain]
        simp [setOpenL]
      by_cases hk : k < b.flat.length
      · have hk' : k < (solveMain (Board.mk b.rows b.cols (setOpenL b.flat idx true))
            true fuel).2.flat.length := by omega
        have hmem : (solveMain (Board.mk b.rows b.cols (setOpenL b.flat idx true))
              true fuel).2.flat.getD k default
            ∈ (solveMain (Board.mk b.rows b.cols (setOpenL b.flat idx true))
              true fuel).2.flat := by
          rw [List.getD_eq_getElem _ _ hk']
          exact List.getElem_mem hk'
        have hcl := solveMain_restore_closed
          (Board.mk b.rows b.cols (setOpenL b.flat idx true)) fuel _ hmem
        rw [hcl.1, hcl.2, (horig k hk).1, (horig k hk).2]
        exact ⟨rfl, rfl⟩
      · rw [List.getD_eq_default _ _ (by omega), List.getD_eq_default _ _ (by omega)]
        exact ⟨rfl, rfl⟩

/-- C3 witness: on the fresh 1×1 zero-mine board, `isSolvableFrom([0,0],
restore=true)` leaves the (already closed, unflagged) cell exactly as it
was. -/
theorem c3_amended_restore_on_fresh_board_witness :
    oneByOne.WF ∧ (0 : Nat) < oneByOne.rows ∧ (0 : Nat) < oneByOne.cols
      ∧ (∃ res b', Minefield.isSolvableFrom oneByOne
          (some (JsNum.num 0, JsNum.num 0)) true 8 = Except.ok (res, b')
        ∧ b'.flat.length = oneByOne.flat.length
        ∧ ∀ k : Nat,
            (b'.flat.getD k default).isOpen = (oneByOne.flat.getD k default).isOpen
            ∧ (b'.flat.getD k default).isFlag
              = (oneByOne.flat.getD k default).isFlag) :=
  ⟨by decide, by decide, by decide,
    c3_amended_restore_on_fresh_board oneByOne 0 0 (by decide) (by decide)
      (by decide) (by intro cl hcl; fin_cases hcl; exact ⟨rfl, rfl⟩) 8⟩

/-- A hint entry: the recorded cell indices together with the `safe`
property that `Object.assign` attaches to the array. -/
structure Hint where
  cells : List Nat
  safe : Bool
deriving Repr, DecidableEq

/-- The mutable state of `getHints`: the (aliased) flat cell array, the two
hint accumulators (`hintPositions` / `accurateHintPositions`) and
`allLinkedGroups`.  Arrays are modelled by value; the in-place `sort()` of a
group aliased into `accurateHintPositions` is therefore not observable
there, which is irrelevant to the cell grid. -/
structure HintState where
  flat : List Cell
  hints : List Hint
  accH : List Hint
  groups : List LinkedGroup
deriving Repr

/-- `[...new Set(l)]`: deduplication keeping first occurrences in insertion
order. -/
def dedupFirst (l : List Nat) : List Nat :=
  l.foldl (fun acc x => if acc.contains x then acc else acc ++ [x]) []

/-- The `importantCells` build of `getHints` (lines 454–463): every open
cell with a closed, unflagged neighbour (the inner `for…of` with `return`
pushes at most once). -/
def hintImportant (rows cols : Nat) (flat : List Cell) : List Nat :=
  (List.range flat.length).foldl
    (fun acc i =>
      if (flat.getD i default).isOpen = true
          ∧ (getNearbyCellsIndex rows cols i false).any (fun n =>
              !(flat.getD n default).isOpen && !(flat.getD n default).isFlag)
      then acc ++ [i] else acc) []

/-- 1st try of `getHints` (lines 464–509), body for one important cell:
record the empty-zone hint of a zero-count cell, or the flag-count /
closed-count hints, and register the unflagged neighbours as a linked
group. -/
def hintPass1Step (rows cols : Nat) (st : HintState) (i : Nat) : HintState :=
  if (st.flat.getD i default).isOpen = true then
    let nearbyCells := getNearbyCellsIndex rows cols i false
    if (st.flat.getD i default).mines = 0 then
      let nearbyClosedCells :=
        nearbyCells.filter (fun x => (st.flat.getD x default).isOpen = false)
      if 0 < nearbyClosedCells.length then
        { st with hints := st.hints ++ [⟨nearbyCells ++ [i], true⟩],
                  accH := st.accH ++ [⟨nearbyClosedCells, true⟩] }
      else st
    else
      let stats := nearbyCells.foldl (statsStep st.flat) (0, 0, [])
      if 0 < stats.2.2.length then
        let s1 :=
          if (st.flat.getD i default).mines = (stats.2.1 : Int) then
            { st with hints := st.hints ++ [⟨nearbyCells ++ [i], true⟩],
                      accH := st.accH ++ [⟨stats.2.2, true⟩] }
          else st
        let s2 :=
          if (st.flat.getD i default).mines = (stats.1 : Int) then
            { s1 with hints := s1.hints ++ [⟨nearbyCells ++ [i], false⟩],
                      accH := s1.accH ++ [⟨stats.2.2, false⟩] }
          else s1
        if (stats.2.1 : Int) < (st.flat.getD i default).mines then
          if matrixIncludesArr s2.groups stats.2.2 = false then
            { s2 with groups := s2.groups
                ++ [⟨stats.2.2, (st.flat.getD i default).mines - (stats.2.1 : Int)⟩] }
          else s2
        else s2
      else st
  else st

/-- The neighbour scan of the 2nd try (lines 551–563): accumulate the
phantom-group centre cells, the flagged count and the unknown cells. -/
def hintPass2Scan (rows cols : Nat) (flat : List Cell) (gcells : List Nat)
    (acc : List Nat × Nat × List Nat) (n : Nat) : List Nat × Nat × List Nat :=
  let tempNearby := getNearbyCellsIndex rows cols n false
  let pg := if gcells.all (fun x => tempNearby.contains x)
      ∧ (flat.getD n default).isOpen = true then acc.1 ++ tempNearby else acc.1
  if (flat.getD n default).isFlag then (pg, acc.2.1 + 1, acc.2.2)
  else if (flat.getD n default).isOpen = false ∧ gcells.contains n = false then
    (pg, acc.2.1, acc.2.2 ++ [n])
  else (pg, acc.2.1, acc.2.2)

/-- 2nd try of `getHints` (lines 545–583), body for one linked group at one
important cell: flag-all or open-all hints derived from a phantom group. -/
def hintPass2Step (rows cols : Nat) (i : Nat) (nearby : List Nat)
    (st : HintState) (lg : LinkedGroup) : HintState :=
  if arrIncludesSome lg.cells nearby = true then
    let scan := nearby.foldl (hintPass2Scan rows cols st.flat lg.cells) ([], 0, [])
    if 0 < scan.2.2.length then
      let uncontained := (lg.cells.filter (fun x => !(nearby.contains x))).length
      if (st.flat.getD i default).mines
          = (scan.2.1 : Int) + lg.mines + (scan.2.2.length : Int) then
        { st with hints := st.hints ++ [⟨dedupFirst (nearby ++ scan.1 ++ [i]), false⟩],
                  accH := st.accH ++ [⟨scan.2.2, false⟩] }
      else if (st.flat.getD i default).mines
          = (scan.2.1 : Int) + lg.mines - (uncontained : Int) then
        let unknown2 := scan.2.2.filter (fun x => (st.flat.getD x default).isFlag = false)
        if 0 < unknown2.length then
          { st with hints := st.hints ++ [⟨dedupFirst (nearby ++ scan.1 ++ [i]), true⟩],
                    accH := st.accH ++ [⟨unknown2, true⟩] }
        else st
      else st
    else st
  else st

/-- One important cell of the 2nd try: iterate the (fixed) linked groups. -/
def hintPass2Outer (rows cols : Nat) (st : HintState) (i : Nat) : HintState :=
  st.groups.foldl (hintPass2Step rows cols i (getNearbyCellsIndex rows cols i false)) st

/-- 3rd try of `getHints` (lines 584–630): the all-remaining-cells-safe hint
when flag and mine totals agree, else the sorted/summed linked-group hints
over cells outside a group covering all remaining mines. -/
def hintPass3 (st : HintState) : HintState :=
  let flagsCount := st.flat.countP (fun cl => cl.isFlag)
  let minesCount := st.flat.countP (fun cl => cl.isMine)
  if flagsCount = minesCount then
    let closedCells := (List.range st.flat.length).filter
      (fun i => (st.flat.getD i default).isOpen = false
        ∧ (st.flat.getD i default).isFlag = false)
    if 0 < closedCells.length then
      { st with hints := st.hints ++ [⟨closedCells, true⟩],
                accH := st.accH ++ [⟨closedCells, true⟩] }
    else st
  else
    let sorted := jsSortGroups (st.groups.map (fun g => { g with cells := jsSortNats g.cells }))
    let sum := sorted.foldl
      (fun acc g =>
        if arrIncludesSome acc.cells g.cells = false then
          { cells := acc.cells ++ g.cells, mines := acc.mines + g.mines }
        else acc)
      (⟨[], 0⟩ : LinkedGroup)
    let groups2 := sorted ++ [sum]
    groups2.foldl
      (fun s g =>
        if g.mines = (minesCount : Int) - (flagsCount : Int) then
          let safeCells := (List.range s.flat.length).filter
            (fun i => (s.flat.getD i default).isOpen = false
              ∧ (s.flat.getD i default).isFlag = false
              ∧ g.cells.contains i = false)
          if 0 < safeCells.length then
            { s with hints := s.hints ++ [⟨safeCells, true⟩],
                     accH := s.accH ++ [⟨safeCells, true⟩] }
          else s
        else s)
      { st with groups := groups2 }

/-- The final conversion of one hint's indices (lines 632–636):
`cellAt(indexToPosition(index))`, sequentially, propagating any
`TypeError`. -/
def hintCellsGo (b : Board) : List Nat → Except JsError (List (Option Cell))
  | [] => Except.ok []
  | idx :: rest =>
    match Minefield.cellAt b (JsNum.num ((indexToPosition b.cols idx).1 : Int))
        (JsNum.num ((indexToPosition b.cols idx).2 : Int)) with
    | Except.error e => Except.error e
    | Except.ok oc =>
      match hintCellsGo b rest with
      | Except.error e => Except.error e
      | Except.ok l => Except.ok (oc :: l)

/-- The final conversion of the chosen hint list into cell lists. -/
def mapHintsGo (b : Board) : List Hint → Except JsError (List (List (Option Cell) × Bool))
  | [] => Except.ok []
  | h :: rest =>
    match hintCellsGo b h.cells with
    | Except.error e => Except.error e
    | Except.ok cs =>
      match mapHintsGo b rest with
      | Except.error e => Except.error e
      | Except.ok l => Except.ok ((cs, h.safe) :: l)

/-- `getHints(accurateHint)` (lines 448–637): build `importantCells`, run the
three hint passes around the same group-shifting loop as `isSolvableFrom`,
pick the requested accumulator (the `?? []` on it is dead code) and convert
its indices to cells; the board travels with the store. -/
def Minefield.getHints (b : Board) (accurateHint : Bool) (fuel : Nat) :
    Except JsError (List (List (Option Cell) × Bool) × Board) :=
  let important := hintImportant b.rows b.cols b.flat
  let st1 := important.foldl (hintPass1Step b.rows b.cols)
    { flat := b.flat, hints := [], accH := [], groups := [] }
  let st2 : HintState :=
    { st1 with groups := shiftLoopGo b.rows b.cols st1.flat important fuel st1.groups }
  let st3 := important.foldl (hintPass2Outer b.rows b.cols) st2
  let st4 := hintPass3 st3
  let b' := Board.mk b.rows b.cols st4.flat
  let hints := if accurateHint then st4.accH else st4.hints
  match mapHintsGo b' hints with
  | Except.error e => Except.error e
  | Except.ok hs => Except.ok (hs, b')

lemma flat_foldl_hint {β : Type} (f : HintState → β → HintState)
    (hf : ∀ s x, (f s x).flat = s.flat) (l : List β) (st : HintState) :
    (l.foldl f st).flat = st.flat := by
  induction l generalizing st with
  | nil => rfl
  | cons x t ih => rw [List.foldl_cons, ih, hf]

lemma flat_hintPass1Step (rows cols : Nat) (st : HintState) (i : Nat) :
    (hintPass1Step rows cols st i).flat = st.flat := by
  unfold hintPass1Step
  dsimp only
  split_ifs <;> rfl

lemma flat_hintPass2Step (rows cols i : Nat) (nearby : List Nat)
    (st : HintState) (lg : LinkedGroup) :
    (hintPass2Step rows cols i nearby st lg).flat = st.flat := by
  unfold hintPass2Step
  dsimp only
  split_ifs <;> rfl

lemma flat_hintPass2Outer (rows cols : Nat) (st : HintState) (i : Nat) :
    (hintPass2Outer rows cols st i).flat = st.flat :=
  flat_foldl_hint _ (fun s x => flat_hintPass2Step _ _ _ _ s x) _ _

lemma flat_hintPass3 (st : HintState) : (hintPass3 st).flat = st.flat := by
  unfold hintPass3
  dsimp only
  split_ifs
  · rfl
  · rfl
  · exact flat_foldl_hint _
      (fun s g => by split_ifs <;> first | rfl | (dsimp only; split_ifs <;> rfl)) _ _

/-- **C8.**  `getHints` never mutates the board: whatever it returns, the
accompanying board has the same dimensions and exactly the cell list it was
called with — in particular every cell's `isOpen`, `isFlag`, `isMine` and
`mines` are unchanged, for either value of the `accurateHint` flag and any
shifting-loop fuel. -/
theorem c8_getHints_board_unchanged (b : Board) (accurateHint : Bool)
    (fuel : Nat) (hs : List (List (Option Cell) × Bool)) (b' : Board)
    (h : Minefield.getHints b accurateHint fuel = Except.ok (hs, b')) :
    b'.rows = b.rows ∧ b'.cols = b.cols ∧ b'.flat = b.flat := by
  unfold Minefield.getHints at h
  dsimp only at h
  have h1 : ∀ st : HintState,
      ((hintImportant b.rows b.cols b.flat).foldl
        (hintPass1Step b.rows b.cols) st).flat = st.flat :=
    fun st => flat_foldl_hint _ (fun s x => flat_hintPass1Step _ _ s x) _ st
  have h2 : ∀ st : HintState,
      ((hintImportant b.rows b.cols b.flat).foldl
        (hintPass2Outer b.rows b.cols) st).flat = st.flat :=
    fun st => flat_foldl_hint _ (fun s x => flat_hintPass2Outer _ _ s x) _ st
  rw [flat_hintPass3] at h
  rw [h2] at h
  rw [h1] at h
  split at h
  · exact absurd h (by simp)
  · rw [Except.ok.injEq, Prod.mk.injEq] at h
    rw [← h.2]
    exact ⟨rfl, rfl, rfl⟩

/-- The untouched cell of the 1×1 witness board. -/
def freshCell : Cell :=
  { mines := 0, isMine := false, isOpen := false, isFlag := false, row := 0, col := 0 }

/-- C8 witness: on the fresh 1×1 zero-mine board, `getHints` returns the
all-remaining-cells-safe hint and a board identical to the input. -/
theorem c8_getHints_board_unchanged_witness :
    Minefield.getHints oneByOne false 2
      = Except.ok ([([some freshCell], true)], Board.mk 1 1 [freshCell])
    ∧ (Board.mk 1 1 [freshCell]).flat = oneByOne.flat :=
  ⟨by decide,
    (c8_getHints_board_unchanged oneByOne false 2 [([some freshCell], true)]
      (Board.mk 1 1 [freshCell]) (by decide)).2.2⟩
